import Mathlib

/-!
# Dijets node: decidable items, snowstorm acceptor, genesis, polls, platformvm executors,
RPC error codes, sampler

A shallow embedding of parts of the Go sources, followed by theorems about them.
Go pointers are modelled by explicit state passing: a method with a pointer
receiver takes the receiver's state and returns the new state next to its Go
results.  A Go `error` is `Option GoError`, with `none` for `nil`.
-/

namespace Dijets

/-! ## Shared value types -/

/-- Values of Go's `error` interface: `errors.New(msg)`, `fmt.Errorf(format, args...)`
without a wrapped operand, and `fmt.Errorf` with a `%w` operand. -/
inductive GoError where
  | new (msg : String)
  | errorf (format : String) (args : List String)
  | wrapf (format : String) (args : List String) (inner : GoError)
deriving DecidableEq, Repr

/-- The type `ids.ID` (a 32 byte array used as an opaque identifier), as a natural number. -/
abbrev ID := Nat

/-- The value `ids.ID{}` (also `ids.Empty`): the all-zero identifier. -/
def ID.Empty : ID := 0

/-- The type `ids.ShortID` (a 20 byte address), as a natural number. -/
abbrev ShortID := Nat

/-! ## snow/choices: `TestDecidable` -/

namespace choices

/-- Modelled from the spec: the declaration of `choices.Status` is not among the sources;
the data model gives its values as Unknown, Processing, Accepted and Rejected, the
names `test_decidable.go` uses. -/
inductive Status where
  | Unknown
  | Processing
  | Rejected
  | Accepted
deriving DecidableEq, Repr

/-- The text `%s` prints for a status in the error message of a refused transition. -/
def Status.String : Status → String
  | .Unknown => "Unknown"
  | .Processing => "Processing"
  | .Rejected => "Rejected"
  | .Accepted => "Accepted"

/-- The struct `TestDecidable` of `test_decidable.go`. -/
structure TestDecidable where
  IDV : ID
  AcceptV : Option GoError
  RejectV : Option GoError
  StatusV : Status
deriving DecidableEq, Repr

/-- The error `Accept` and `Reject` build with `fmt.Errorf` when they refuse a transition. -/
def invalidTransition (src dst : Status) : GoError :=
  .errorf "invalid state transition from %s to %s" [src.String, dst.String]

/-- Method `(*TestDecidable).ID`. -/
def TestDecidable.ID (d : TestDecidable) : Dijets.ID := d.IDV

/-- Method `(*TestDecidable).Status`. -/
def TestDecidable.Status (d : TestDecidable) : Status := d.StatusV

/-- Method `(*TestDecidable).Accept`: the receiver after the call and the returned error. -/
def TestDecidable.Accept (d : TestDecidable) : TestDecidable × Option GoError :=
  match d.StatusV with
  | .Unknown | .Rejected => (d, some (invalidTransition d.StatusV .Accepted))
  | _ => ({ d with StatusV := .Accepted }, d.AcceptV)

/-- Method `(*TestDecidable).Reject`: the receiver after the call and the returned error. -/
def TestDecidable.Reject (d : TestDecidable) : TestDecidable × Option GoError :=
  match d.StatusV with
  | .Unknown | .Accepted => (d, some (invalidTransition d.StatusV .Rejected))
  | _ => ({ d with StatusV := .Rejected }, d.RejectV)

/-- One call made on a decidable item. -/
inductive Call where
  | accept
  | reject
deriving DecidableEq, Repr

/-- The receiver after one call (the returned error is dropped). -/
def TestDecidable.step (d : TestDecidable) : Call → TestDecidable
  | .accept => d.Accept.1
  | .reject => d.Reject.1

/-- The receiver after a finite sequence of calls, made first to last. -/
def TestDecidable.run (d : TestDecidable) (cs : List Call) : TestDecidable :=
  cs.foldl TestDecidable.step d

end choices

/-! ## snow/consensus/snowstorm: `acceptor` -/

namespace snowstorm

/-- What an acceptor reaches through its pointers `g` (the `*Directed` graph) and `errs`
(the `*wrappers.Errs` it shares with the graph), over a state `W` of everything behind
those pointers.  Neither `Directed` nor `wrappers.Errs` is among the sources, so the
three methods `acceptor.go` calls on them are parameters. -/
structure Env (W : Type) where
  /-- Method `(*Directed).accept(ctx, txID)`: the new state and the returned error. -/
  accept : W → ID → W × Option GoError
  /-- Method `(*wrappers.Errs).Errored()`. -/
  Errored : W → Bool
  /-- Method `(*wrappers.Errs).Add(err)`. -/
  Add : W → Option GoError → W

/-- The fields of the struct `acceptor` that are values (`g` and `errs` are pointers into
the shared state). -/
structure acceptor where
  deps : Finset ID
  rejected : Bool
  txID : ID
deriving DecidableEq

/-- An acceptor together with the shared state and a record of the calls made to
`g.accept` so far (the transaction IDs passed, latest first). -/
structure St (W : Type) where
  a : acceptor
  w : W
  accepts : List ID

/-- Method `(*acceptor).Dependencies`. -/
def acceptor.Dependencies (a : acceptor) : Finset ID := a.deps

/-- Method `(*acceptor).Update`. -/
def Update {W : Type} (env : Env W) (s : St W) : St W :=
  if s.a.rejected || s.a.deps.card != 0 || env.Errored s.w then
    s
  else
    { s with
      w := env.Add (env.accept s.w s.a.txID).1 (env.accept s.w s.a.txID).2
      accepts := s.a.txID :: s.accepts }

/-- Method `(*acceptor).Fulfill`. -/
def Fulfill {W : Type} (env : Env W) (s : St W) (id : ID) : St W :=
  Update env { s with a := { s.a with deps := s.a.deps.erase id } }

/-- Method `(*acceptor).Abandon`. -/
def Abandon {W : Type} (s : St W) (_id : ID) : St W :=
  { s with a := { s.a with rejected := true } }

/-- One call made on an acceptor through the `events.Blockable` interface. -/
inductive Op where
  | fulfill (id : ID)
  | abandon (id : ID)
  | update
deriving DecidableEq, Repr

/-- The state after one call. -/
def step {W : Type} (env : Env W) (s : St W) : Op → St W
  | .fulfill id => Fulfill env s id
  | .abandon id => Abandon s id
  | .update => Update env s

/-- The state after a finite sequence of calls, made first to last. -/
def run {W : Type} (env : Env W) (s : St W) (ops : List Op) : St W :=
  ops.foldl (step env) s

/-- The struct `wrappers.Errs` as its use in `acceptor.go` needs it: the first error
recorded, if any.  Used to run the acceptor on concrete inputs. -/
structure Errs where
  Err : Option GoError
deriving DecidableEq, Repr

/-- An acceptor for transaction 8 that waits on transaction 3 alone, with no error
recorded and no call to `g.accept` made yet. -/
def testSt : St Errs where
  a := { deps := {3}, rejected := false, txID := 8 }
  w := { Err := none }
  accepts := []

/-- A concrete environment to run the acceptor in: the shared state is an `Errs`,
`accept` returns `result txID` and leaves the state alone, `Errored` tells whether an
error is recorded and `Add` records an error if none is recorded yet. -/
def testEnv (result : ID → Option GoError) : Env Errs where
  accept := fun w tx => (w, result tx)
  Errored := fun w => w.Err.isSome
  Add := fun w e => if w.Err.isSome then w else { Err := e }

end snowstorm

/-! ## genesis: `validateConfig`, `FromFile`, `FromFlag` -/

namespace genesis

/-- A Go byte slice. -/
abbrev Bytes := List UInt8

/-- The struct `LockedAmount` (declared in `config.go`, outside the sources), with the
fields `genesis.go` reads; `uint64` fields are natural numbers. -/
structure LockedAmount where
  Amount : Nat
  Locktime : Nat
deriving DecidableEq, Repr

/-- The struct `Allocation` (declared outside the sources), with the fields `genesis.go`
reads. -/
structure Allocation where
  ETHAddr : ShortID
  DJTXAddr : ShortID
  InitialAmount : Nat
  UnlockSchedule : List LockedAmount
deriving DecidableEq, Repr

/-- The struct `Staker` (declared outside the sources), with the fields `genesis.go`
reads. -/
structure Staker where
  NodeID : ShortID
  RewardAddress : ShortID
  DelegationFee : Nat
deriving DecidableEq, Repr

/-- The struct `Config` (declared outside the sources), with the fields `genesis.go`
reads. -/
structure Config where
  NetworkID : Nat
  Allocations : List Allocation
  StartTime : Nat
  InitialStakeDuration : Nat
  InitialStakeDurationOffset : Nat
  InitialStakedFunds : List ShortID
  InitialStakers : List Staker
  CChainGenesis : String
  Message : String
deriving DecidableEq, Repr

/-- The three results of `FromFile`, `FromFlag` and `FromConfig`: the genesis bytes
(`none` for a nil slice), the asset ID and the error. -/
abbrev GenesisResult := Option Bytes × ID × Option GoError

/-- What `genesis.go` takes from outside the sources: the network constants and names of
`utils/constants`, address formatting, the clock, `Config.InitialSupply`, the two
config loaders, and `FromConfig`, whose body builds the chains through packages
that are not among the sources. -/
structure Env where
  /-- Constant `constants.MainnetID`. -/
  MainnetID : Nat
  /-- Constant `constants.TahoeID`. -/
  TahoeID : Nat
  /-- Constant `constants.LocalID`. -/
  LocalID : Nat
  /-- Function `constants.NetworkName`. -/
  NetworkName : Nat → String
  /-- Function `constants.GetHRP`. -/
  GetHRP : Nat → String
  /-- Function `address.Format(chainIDAlias, hrp, addr.Bytes())`. -/
  Format : String → String → ShortID → Except GoError String
  /-- Method `ids.ShortID.String`. -/
  ShortIDString : ShortID → String
  /-- Method `(Config).InitialSupply`. -/
  InitialSupply : Config → Except GoError Nat
  /-- The nanoseconds `time.Since(time.Unix(sec, 0))` returns for a Unix time `sec`. -/
  Since : Int → Int
  /-- Function `GetConfigFile`. -/
  GetConfigFile : String → Except GoError Config
  /-- Function `GetConfigContent`. -/
  GetConfigContent : String → Except GoError Config
  /-- Function `FromConfig`. -/
  FromConfig : Config → GenesisResult

/-- Constant `configChainIDAlias`. -/
def configChainIDAlias : String := "X"

/-- Variable `errNoInitiallyStakedFunds`. -/
def errNoInitiallyStakedFunds : GoError := .new "initial staked funds cannot be empty"

/-- Variable `errNoSupply`. -/
def errNoSupply : GoError := .new "initial supply must be > 0"

/-- Variable `errNoStakeDuration`. -/
def errNoStakeDuration : GoError := .new "initial stake duration must be > 0"

/-- Variable `errNoStakers`. -/
def errNoStakers : GoError := .new "initial stakers must be > 0"

/-- Variable `errNoCChainGenesis`. -/
def errNoCChainGenesis : GoError := .new "C-Chain genesis cannot be empty"

/-- The conversion `uint64(n)` of a non-negative `int`. -/
def toUint64 (n : Nat) : Nat := n % 2 ^ 64

/-- The conversion `int64(n)` of a `uint64`. -/
def toInt64 (n : Nat) : Int :=
  if n % 2 ^ 64 < 2 ^ 63 then ((n % 2 ^ 64 : Nat) : Int) else ((n % 2 ^ 64 : Nat) : Int) - 2 ^ 64

/-- The error `validateInitialStakedFunds` returns for an offending address: the
formatted address put in `format`, or the formatting failure. -/
def stakedFundsError (env : Env) (config : Config) (staker : ShortID) (format : String) :
    GoError :=
  match env.Format configChainIDAlias (env.GetHRP config.NetworkID) staker with
  | .error _ => .errorf "unable to format address from %s" [env.ShortIDString staker]
  | .ok djtxAddr => .errorf format [djtxAddr]

/-- The second loop of `validateInitialStakedFunds`, over the stakers still to visit, with
`initialStakedFundsSet` as built so far. -/
def stakedFundsLoop (env : Env) (config : Config) (allocationSet : Finset ShortID) :
    Finset ShortID → List ShortID → Option GoError
  | _, [] => none
  | initialStakedFundsSet, staker :: rest =>
    if staker ∈ initialStakedFundsSet then
      some (stakedFundsError env config staker
        "address %s is duplicated in initial staked funds")
    else if staker ∉ allocationSet then
      some (stakedFundsError env config staker
        "address %s does not have an allocation to stake")
    else
      stakedFundsLoop env config allocationSet (insert staker initialStakedFundsSet) rest

/-- Function `validateInitialStakedFunds`. -/
def validateInitialStakedFunds (env : Env) (config : Config) : Option GoError :=
  if config.InitialStakedFunds.length == 0 then
    some errNoInitiallyStakedFunds
  else
    let allocationSet : Finset ShortID :=
      config.Allocations.foldl (fun st allocation => insert allocation.DJTXAddr st) ∅
    stakedFundsLoop env config allocationSet ∅ config.InitialStakedFunds

/-- Function `validateConfig`. -/
def validateConfig (env : Env) (networkID : Nat) (config : Config) : Option GoError :=
  if networkID != config.NetworkID then
    some (.errorf "networkID %d specified but genesis config contains networkID %d"
      [toString networkID, toString config.NetworkID])
  else
    match env.InitialSupply config with
    | .error err => some (.wrapf "unable to calculate initial supply: %w" [] err)
    | .ok initialSupply =>
      if initialSupply == 0 then
        some errNoSupply
      else if env.Since (toInt64 config.StartTime) < 0 then
        some (.errorf "start time cannot be in the future: %s"
          [toString (toInt64 config.StartTime)])
      else if config.InitialStakeDuration == 0 then
        some errNoStakeDuration
      else if config.InitialStakers.length == 0 then
        some errNoStakers
      else
        let offsetTimeRequired :=
          (config.InitialStakeDurationOffset
            * toUint64 (config.InitialStakers.length - 1)) % 2 ^ 64
        if offsetTimeRequired > config.InitialStakeDuration then
          some (.errorf "initial stake duration is %d but need at least %d with offset of %d"
            [toString config.InitialStakeDuration, toString offsetTimeRequired,
              toString config.InitialStakeDurationOffset])
        else
          match validateInitialStakedFunds env config with
          | some err => some (.wrapf "initial staked funds validation failed: %w" [] err)
          | none =>
            if config.CChainGenesis.utf8ByteSize == 0 then some errNoCChainGenesis else none

/-- The calls `FromFile` and `FromFlag` make on their way. -/
inductive Event where
  | GetConfigFile (filepath : String)
  | GetConfigContent (genesisContent : String)
  | validateConfig (networkID : Nat)
  | FromConfig
deriving DecidableEq, Repr

/-- The error `FromFile` and `FromFlag` return for a standard network. -/
def errStandardNetwork (env : Env) (networkID : Nat) : GoError :=
  .errorf "cannot override genesis config for standard network %s (%d)"
    [env.NetworkName networkID, toString networkID]

/-- Function `FromFile`: its three results, and the calls it made, first to last. -/
def FromFile (env : Env) (networkID : Nat) (filepath : String) :
    GenesisResult × List Event :=
  if networkID == env.MainnetID || networkID == env.TahoeID || networkID == env.LocalID then
    ((none, ID.Empty, some (errStandardNetwork env networkID)), [])
  else
    match env.GetConfigFile filepath with
    | .error err =>
      ((none, ID.Empty,
        some (.wrapf "unable to load provided genesis config at %s: %w" [filepath] err)),
        [.GetConfigFile filepath])
    | .ok config =>
      match validateConfig env networkID config with
      | some err =>
        ((none, ID.Empty, some (.wrapf "genesis config validation failed: %w" [] err)),
          [.GetConfigFile filepath, .validateConfig networkID])
      | none =>
        (env.FromConfig config,
          [.GetConfigFile filepath, .validateConfig networkID, .FromConfig])

/-- Function `FromFlag`: its three results, and the calls it made, first to last. -/
def FromFlag (env : Env) (networkID : Nat) (genesisContent : String) :
    GenesisResult × List Event :=
  if networkID == env.MainnetID || networkID == env.TahoeID || networkID == env.LocalID then
    ((none, ID.Empty, some (errStandardNetwork env networkID)), [])
  else
    match env.GetConfigContent genesisContent with
    | .error err =>
      ((none, ID.Empty, some (.wrapf "unable to load genesis content from flag: %w" [] err)),
        [.GetConfigContent genesisContent])
    | .ok customConfig =>
      match validateConfig env networkID customConfig with
      | some err =>
        ((none, ID.Empty, some (.wrapf "genesis config validation failed: %w" [] err)),
          [.GetConfigContent genesisContent, .validateConfig networkID])
      | none =>
        (env.FromConfig customConfig,
          [.GetConfigContent genesisContent, .validateConfig networkID, .FromConfig])

/-! ### `splitAllocations` -/

/-- Addition of two `uint64` values. -/
def add64 (a b : Nat) : Nat := (a + b) % 2 ^ 64

/-- Subtraction of two `uint64` values. -/
def sub64 (a b : Nat) : Nat := (a % 2 ^ 64 + 2 ^ 64 - b % 2 ^ 64) % 2 ^ 64

/-- The variables of `splitAllocations` that its loops update. -/
structure SplitState where
  allNodeAllocations : List (List Allocation)
  currentNodeAllocation : List Allocation
  currentNodeAmount : Nat
  currentAllocation : Allocation
deriving DecidableEq, Repr

/-- The statements `currentAllocation := allocation`, `currentAllocation.InitialAmount = 0`
and `currentAllocation.UnlockSchedule = nil` of `splitAllocations`. -/
def freshAllocation (allocation : Allocation) : Allocation :=
  { allocation with InitialAmount := 0, UnlockSchedule := [] }

/-- The first loop of `splitAllocations`: `totalAmount`. -/
def totalAmount (allocations : List Allocation) : Nat :=
  allocations.foldl
    (fun total allocation =>
      allocation.UnlockSchedule.foldl (fun total unlock => add64 total unlock.Amount) total)
    0

/-- The innermost loop of `splitAllocations` (the `for` with a condition), run for at most
`fuel` rounds on the loop variables and the local copy of `unlock`. -/
def splitWhile (allocation : Allocation) (nodeWeight numSplits : Nat) :
    Nat → SplitState → LockedAmount → SplitState × LockedAmount
  | 0, st, unlock => (st, unlock)
  | fuel + 1, st, unlock =>
    if add64 st.currentNodeAmount unlock.Amount > nodeWeight
        ∧ st.allNodeAllocations.length < numSplits - 1 then
      let amountToAdd := sub64 nodeWeight st.currentNodeAmount
      let currentAllocation : Allocation :=
        { st.currentAllocation with
          UnlockSchedule :=
            st.currentAllocation.UnlockSchedule ++ [⟨amountToAdd, unlock.Locktime⟩] }
      splitWhile allocation nodeWeight numSplits fuel
        { allNodeAllocations :=
            st.allNodeAllocations ++ [st.currentNodeAllocation ++ [currentAllocation]]
          currentNodeAllocation := []
          currentNodeAmount := 0
          currentAllocation := freshAllocation allocation }
        { unlock with Amount := sub64 unlock.Amount amountToAdd }
    else
      (st, unlock)

/-- The loop of `splitAllocations` over the unlock schedule of `allocation`.  The innermost
loop gets `numSplits` rounds, more than it can use: every round adds a group and it
stops at `numSplits - 1` groups. -/
def splitUnlocks (allocation : Allocation) (nodeWeight numSplits : Nat) :
    SplitState → List LockedAmount → SplitState
  | st, [] => st
  | st, unlock :: rest =>
    let r := splitWhile allocation nodeWeight numSplits numSplits st unlock
    if r.2.Amount == 0 then
      splitUnlocks allocation nodeWeight numSplits r.1 rest
    else
      splitUnlocks allocation nodeWeight numSplits
        { r.1 with
          currentAllocation :=
            { r.1.currentAllocation with
              UnlockSchedule :=
                r.1.currentAllocation.UnlockSchedule ++ [⟨r.2.Amount, r.2.Locktime⟩] }
          currentNodeAmount := add64 r.1.currentNodeAmount r.2.Amount }
        rest

/-- One round of the loop of `splitAllocations` over the allocations. -/
def splitStep (nodeWeight numSplits : Nat) (st : SplitState) (allocation : Allocation) :
    SplitState :=
  let st1 := splitUnlocks allocation nodeWeight numSplits
    { st with currentAllocation := freshAllocation allocation } allocation.UnlockSchedule
  if st1.currentAllocation.UnlockSchedule.length > 0 then
    { st1 with currentNodeAllocation := st1.currentNodeAllocation ++ [st1.currentAllocation] }
  else
    st1

/-- The state `splitAllocations` starts its second loop in (`currentAllocation` is set at
the start of every round). -/
def splitInit : SplitState where
  allNodeAllocations := []
  currentNodeAllocation := []
  currentNodeAmount := 0
  currentAllocation := ⟨0, 0, 0, []⟩

/-- Function `splitAllocations`; `none` stands for the panic of the division by zero. -/
def splitAllocations (allocations : List Allocation) (numSplits : Nat) :
    Option (List (List Allocation)) :=
  if toUint64 numSplits = 0 then
    none
  else
    let nodeWeight := totalAmount allocations / toUint64 numSplits
    let st := allocations.foldl (splitStep nodeWeight numSplits) splitInit
    some (st.allNodeAllocations ++ [st.currentNodeAllocation])

/-- The allocations `FromConfig` collects in `skippedAllocations`: those whose `DJTXAddr`
is in `config.InitialStakedFunds`. -/
def skippedAllocations (config : Config) : List Allocation :=
  config.Allocations.filter (fun allocation => allocation.DJTXAddr ∈ config.InitialStakedFunds)

/-- The lookup `allNodeAllocations[i]` that `FromConfig` makes for the initial staker with
index `i`; `none` stands for a panic (division by zero, index out of range). -/
def nodeAllocations (config : Config) (i : Nat) : Option (List Allocation) :=
  match splitAllocations (skippedAllocations config) config.InitialStakers.length with
  | none => none
  | some allNodeAllocations => allNodeAllocations[i]?

/-- The sum of the amounts of an unlock schedule, over the natural numbers. -/
def scheduleAmount (schedule : List LockedAmount) : Nat :=
  (schedule.map (fun unlock => unlock.Amount)).sum

/-- The sum of the unlock amounts of a list of allocations, over the natural numbers. -/
def allocationsAmount (allocations : List Allocation) : Nat :=
  (allocations.map (fun allocation => scheduleAmount allocation.UnlockSchedule)).sum

/-- The sum of the unlock amounts of a list of groups, over the natural numbers. -/
def groupsAmount (groups : List (List Allocation)) : Nat :=
  (groups.map allocationsAmount).sum

/-- What the loops of `splitAllocations` keep true when no sum wraps around, with
`inProgress` the amount already put into `currentAllocation`: `currentNodeAmount` is the
amount of the group being filled, every finished group holds exactly `nodeWeight`,
there are at most `numSplits - 1` finished groups, and while fewer are finished the
group being filled holds at most `nodeWeight`. -/
def SplitInv (nodeWeight numSplits inProgress : Nat) (st : SplitState) : Prop :=
  st.currentNodeAmount = allocationsAmount st.currentNodeAllocation + inProgress
    ∧ (∀ g ∈ st.allNodeAllocations, allocationsAmount g = nodeWeight)
    ∧ st.allNodeAllocations.length ≤ numSplits - 1
    ∧ (st.allNodeAllocations.length < numSplits - 1 → st.currentNodeAmount ≤ nodeWeight)

/-- An allocation `a` made of pieces of the input allocation `al`: it has `InitialAmount` 0,
the addresses of `al`, and every entry of its unlock schedule has the locktime of an
entry of the unlock schedule of `al`. -/
def PieceOf (al a : Allocation) : Prop :=
  a.InitialAmount = 0 ∧ a.ETHAddr = al.ETHAddr ∧ a.DJTXAddr = al.DJTXAddr
    ∧ ∀ p ∈ a.UnlockSchedule, ∃ u ∈ al.UnlockSchedule, p.Locktime = u.Locktime

/-- An allocation made of pieces of one of the input allocations. -/
def CutFrom (allocations : List Allocation) (a : Allocation) : Prop :=
  ∃ al ∈ allocations, PieceOf al a

/-- Every allocation in the finished groups and in the group being filled is made of
pieces of one of the input allocations. -/
def SplitProv (allocations : List Allocation) (st : SplitState) : Prop :=
  (∀ g ∈ st.allNodeAllocations, ∀ a ∈ g, CutFrom allocations a)
    ∧ ∀ a ∈ st.currentNodeAllocation, CutFrom allocations a

/-- One entry of an unlock schedule together with the addresses of the allocation that
holds it. -/
structure Piece where
  ETHAddr : ShortID
  DJTXAddr : ShortID
  Locktime : Nat
  Amount : Nat
deriving DecidableEq, Repr

/-- The entries of the unlock schedule of an allocation, in order, each with the addresses
of the allocation. -/
def allocationPieces (a : Allocation) : List Piece :=
  a.UnlockSchedule.map (fun unlock => ⟨a.ETHAddr, a.DJTXAddr, unlock.Locktime, unlock.Amount⟩)

/-- The unlock entries of a list of allocations, in order. -/
def allocationsPieces : List Allocation → List Piece
  | [] => []
  | a :: rest => allocationPieces a ++ allocationsPieces rest

/-- The unlock entries of a list of groups, in order. -/
def groupsPieces : List (List Allocation) → List Piece
  | [] => []
  | g :: rest => allocationsPieces g ++ groupsPieces rest

/-- The list `run` is the unlock entry `u` cut into pieces: every piece has the addresses
and the locktime of `u`, and the amounts of the pieces sum to the amount of `u`. -/
def CutOf (u : Piece) (run : List Piece) : Prop :=
  (∀ p ∈ run, p.ETHAddr = u.ETHAddr ∧ p.DJTXAddr = u.DJTXAddr ∧ p.Locktime = u.Locktime)
    ∧ (run.map (fun p => p.Amount)).sum = u.Amount

/-- The list `output` is the list `input` with every entry cut into pieces, in order: the
pieces of the first entry, then the pieces of the second, and so on (an entry of
amount 0 may be cut into no piece). -/
inductive CutInto : List Piece → List Piece → Prop where
  | nil : CutInto [] []
  | cons (u : Piece) (run us out : List Piece) :
      CutOf u run → CutInto us out → CutInto (u :: us) (run ++ out)

/-- The unlock entries that the state of `splitAllocations` holds in its finished groups
and in the group being filled, in order. -/
def finishedPieces (st : SplitState) : List Piece :=
  groupsPieces st.allNodeAllocations ++ allocationsPieces st.currentNodeAllocation

/-- The unlock entries that the state of `splitAllocations` holds, those put into
`currentAllocation` so far included, in order. -/
def statePieces (st : SplitState) : List Piece :=
  finishedPieces st ++ allocationPieces st.currentAllocation

/-- A valid config whose only staked allocation has an empty unlock schedule, with two
initial stakers. -/
def emptyScheduleConfig : Config where
  NetworkID := 1337
  Allocations := [⟨11, 22, 5, []⟩]
  StartTime := 1000
  InitialStakeDuration := 3600
  InitialStakeDurationOffset := 60
  InitialStakedFunds := [22]
  InitialStakers := [⟨7, 22, 20000⟩, ⟨8, 22, 20000⟩]
  CChainGenesis := "genesis"
  Message := ""

/-- A config that passes `validateConfig` in `testEnv`: one allocation, staked by its
owner, one staker. -/
def testConfig : Config where
  NetworkID := 1337
  Allocations := [⟨11, 22, 5, [⟨100, 0⟩]⟩]
  StartTime := 1000
  InitialStakeDuration := 3600
  InitialStakeDurationOffset := 60
  InitialStakedFunds := [22]
  InitialStakers := [⟨7, 22, 20000⟩]
  CChainGenesis := "genesis"
  Message := ""

/-- A concrete environment to run `FromFile` and `FromFlag` in: the standard networks
have the IDs 1, 5 and 12345, every path and every content loads `testConfig`, the
clock is past every start time, and `FromConfig` returns one byte and asset ID 9. -/
def testEnv : Env where
  MainnetID := 1
  TahoeID := 5
  LocalID := 12345
  NetworkName := fun n => toString n
  GetHRP := fun _ => "custom"
  Format := fun chain hrp addr => .ok (chain ++ "-" ++ hrp ++ toString addr)
  ShortIDString := fun a => toString a
  InitialSupply := fun c => .ok (c.Allocations.map (fun a => a.InitialAmount)).sum
  Since := fun _ => 1
  GetConfigFile := fun _ => .ok testConfig
  GetConfigContent := fun _ => .ok testConfig
  FromConfig := fun _ => (some [1], 9, none)

/-- A config like `testConfig` with three initial stakers and a stake duration offset of
`2 ^ 63` seconds, so that the offset needed for the last staker is `2 ^ 64`. -/
def overflowConfig : Config where
  NetworkID := 1337
  Allocations := [⟨11, 22, 5, [⟨100, 0⟩]⟩]
  StartTime := 1000
  InitialStakeDuration := 3600
  InitialStakeDurationOffset := 2 ^ 63
  InitialStakedFunds := [22]
  InitialStakers := [⟨7, 22, 20000⟩, ⟨8, 22, 20000⟩, ⟨9, 22, 20000⟩]
  CChainGenesis := "genesis"
  Message := ""

/-! ### `innerSortXAllocation` -/

/-- The `n` bytes of a number below `256 ^ n`, most significant first, by their values. -/
def bigEndian : Nat → Nat → List Nat
  | 0, _ => []
  | n + 1, a => bigEndian n (a / 256) ++ [a % 256]

/-- Method `ids.ShortID.Bytes`: the 20 bytes of the address, a `ShortID` being the number
these bytes spell most significant first. -/
def ShortID.Bytes (a : ShortID) : List Nat := bigEndian 20 a

/-- Function `bytes.Compare` of the Go library, on bytes by their values: the
lexicographic comparison, -1, 0 or 1. -/
def bytesCompare : List Nat → List Nat → Int
  | [], [] => 0
  | [], _ :: _ => -1
  | _ :: _, [] => 1
  | x :: xs, y :: ys => if x < y then -1 else if y < x then 1 else bytesCompare xs ys

/-- The body of `innerSortXAllocation.Less` on the two allocations `xa[i]` and `xa[j]`. -/
def lessAllocation (a b : Allocation) : Bool :=
  decide (a.InitialAmount < b.InitialAmount)
    || (a.InitialAmount == b.InitialAmount
      && bytesCompare (ShortID.Bytes a.DJTXAddr) (ShortID.Bytes b.DJTXAddr) == -1)

/-- Method `innerSortXAllocation.Less`; `none` stands for the panic of an index out of
range. -/
def innerSortXAllocation.Less (xa : List Allocation) (i j : Nat) : Option Bool :=
  match xa[i]?, xa[j]? with
  | some a, some b => some (lessAllocation a b)
  | _, _ => none

/-- Method `innerSortXAllocation.Len`. -/
def innerSortXAllocation.Len (xa : List Allocation) : Nat := xa.length

end genesis

/-! ## vms/platformvm/blocks/executor: `backend` -/

namespace executor

/-- A stateless block (`blocks.Block`), by a handle. -/
abbrev Block := Nat

/-- A state diff (`state.Diff`), by a handle. -/
abbrev Diff := Nat

/-- Variable `database.ErrNotFound`. -/
def ErrNotFound : GoError := .new "not found"

/-- Modelled from the spec: `blockState` is declared outside the sources; these are the
fields `backend_test.go` sets, a nil `statelessBlock` or `onAcceptState` being `none`. -/
structure blockState where
  statelessBlock : Option Block
  onAcceptState : Option Diff
  timestamp : Nat
deriving DecidableEq, Repr

/-- Modelled from the spec: the base state (`state.State`) is outside the sources; these are
the two methods `backend_test.go` expects `GetState` and `GetBlock` to call on it. -/
structure State where
  /-- Method `GetLastAccepted`. -/
  GetLastAccepted : ID
  /-- Method `GetStatelessBlock`: the block, its status and the error. -/
  GetStatelessBlock : ID → Option Block × choices.Status × Option GoError

/-- Modelled from the spec: `backend` is declared outside the sources; these are the fields
`backend_test.go` sets, the map `blkIDToState` being a list of entries read with
`List.lookup`. -/
structure backend where
  state : State
  blkIDToState : List (ID × blockState)

/-- A value of the interface `state.Chain` that `GetState` can return: the `onAcceptState`
of a tracked block, or the base state of the backend itself. -/
inductive Chain where
  | onAccept (d : Diff)
  | base
deriving DecidableEq, Repr

/-- Modelled from the spec: `backend.GetState` is outside the sources; this follows the
four cases of `TestGetState`.  `some c` stands for the results `(c, true)` and `none`
for a second result `false` (the tests do not look at the first result then). -/
def backend.GetState (b : backend) (blkID : ID) : Option Chain :=
  match b.blkIDToState.lookup blkID with
  | some st =>
    match st.onAcceptState with
    | some d => some (.onAccept d)
    | none => none
  | none => if blkID = b.state.GetLastAccepted then some .base else none

/-- Modelled from the spec: `backend.GetBlock` is outside the sources; this follows the
three cases of `TestBackendGetBlock`: the block in memory with a nil error, else the
block and the error of the base state. -/
def backend.GetBlock (b : backend) (blkID : ID) : Option Block × Option GoError :=
  match b.blkIDToState.lookup blkID with
  | some st => (st.statelessBlock, none)
  | none => ((b.state.GetStatelessBlock blkID).1, (b.state.GetStatelessBlock blkID).2.2)

/-- The backend of `TestGetState`: block 1 tracked with `onAcceptState` 50, block 2
tracked with none, last accepted block 4. -/
def testGetStateBackend : backend where
  state := { GetLastAccepted := 4, GetStatelessBlock := fun _ => (none, .Unknown, none) }
  blkIDToState := [(1, ⟨none, some 50, 0⟩), (2, ⟨none, none, 0⟩)]

/-- The backend of `TestBackendGetBlock`: block 1 tracked with stateless block 60, block 3
in the database with stateless block 60, every other block not found. -/
def testGetBlockBackend : backend where
  state :=
    { GetLastAccepted := 0
      GetStatelessBlock := fun i =>
        if i = 3 then (some 60, .Accepted, none) else (none, .Unknown, some ErrNotFound) }
  blkIDToState := [(1, ⟨some 60, none, 0⟩)]

end executor

/-! ## snow/consensus: confidence counter -/

namespace snowball

/-- Modelled from the spec: the confidence counter is not among the sources; the data model
gives it as the pair of `successes` and the last choice, the current preference. -/
structure Counter where
  successes : Nat
  preference : ID
deriving DecidableEq, Repr

/-- Modelled from the spec: the outcome variants of `RecordVote`. -/
inductive TransitionOutcome where
  | NoQuorum
  | QuorumSameChoice
  | QuorumNewChoice
deriving DecidableEq, Repr

/-- Modelled from the spec: the quorum winner of a tally (candidate and total responding
weight, one entry per candidate): the single candidate that holds at least `alpha`,
none when no candidate or more than one does. -/
def quorumWinner (alpha : Nat) (tally : List (ID × Nat)) : Option ID :=
  match tally.filter (fun entry => alpha ≤ entry.2) with
  | [entry] => some entry.1
  | _ => none

/-- Modelled from the spec: `RecordVote` on the counter of one conflict set: the updated
counter, the outcome, and whether `successes` has reached `beta`. -/
def RecordVote (alpha beta : Nat) (c : Counter) (tally : List (ID × Nat)) :
    Counter × TransitionOutcome × Bool :=
  match quorumWinner alpha tally with
  | none => ({ c with successes := 0 }, .NoQuorum, decide (beta ≤ 0))
  | some winner =>
    if winner = c.preference then
      ({ c with successes := c.successes + 1 }, .QuorumSameChoice,
        decide (beta ≤ c.successes + 1))
    else
      ({ successes := 1, preference := winner }, .QuorumNewChoice, decide (beta ≤ 1))

end snowball

/-! ## snow/consensus/avalanche/poll: `Poll`, `Set` -/

namespace poll

/-- The type `ids.NodeID`, as a natural number. -/
abbrev NodeID := Nat

/-- Modelled from the spec: only the interface `Poll` is among the sources, no
implementation; the data model gives a poll as the validator sample it was sent to
(validators with their weights), the votes recorded (one entry per responding
validator, with the IDs voted for) and the sampled validators marked as failed or
timed out. -/
structure Poll where
  sample : List (NodeID × Nat)
  votes : List (NodeID × List ID)
  failed : List NodeID
deriving DecidableEq, Repr

/-- Whether `vdr` is one of the sampled validators. -/
def Poll.sampled (p : Poll) (vdr : NodeID) : Bool :=
  p.sample.any (fun entry => entry.1 == vdr)

/-- Whether `vdr` has a vote recorded. -/
def Poll.voted (p : Poll) (vdr : NodeID) : Bool :=
  p.votes.any (fun entry => entry.1 == vdr)

/-- Modelled from the spec: `Poll.Vote` records the vote if the validator is in the sample
and has not voted (nor timed out) yet, and ignores it otherwise. -/
def Poll.Vote (p : Poll) (vdr : NodeID) (votes : List ID) : Poll :=
  if p.sampled vdr && !p.voted vdr && !p.failed.contains vdr then
    { p with votes := p.votes ++ [(vdr, votes)] }
  else
    p

/-- Modelled from the spec: `Poll.Finished`: every sampled validator has responded or has
been marked as failed or timed out. -/
def Poll.Finished (p : Poll) : Bool :=
  p.sample.all (fun entry => p.voted entry.1 || p.failed.contains entry.1)

/-- The total weight of the sampled validators whose recorded vote holds `candidate`. -/
def Poll.weightFor (p : Poll) (candidate : ID) : Nat :=
  ((p.sample.filter (fun entry =>
      p.votes.any (fun vote => vote.1 == entry.1 && vote.2.contains candidate))).map
    (fun entry => entry.2)).sum

/-- Modelled from the spec: `Poll.Result`: the tally, from candidate to total responding
weight, empty (zero everywhere) before the poll is finished. -/
def Poll.Result (p : Poll) (candidate : ID) : Nat :=
  if p.Finished then p.weightFor candidate else 0

/-- Modelled from the spec: only the interface `Set` is among the sources; a poll set is
the outstanding polls by request ID, one entry per registered request ID. -/
structure Set where
  polls : List (Nat × Poll)
deriving DecidableEq, Repr

/-- Whether `requestID` is registered in the set. -/
def Set.registered (s : Set) (requestID : Nat) : Bool :=
  s.polls.any (fun entry => entry.1 == requestID)

/-- Modelled from the spec: `Factory.New`: a poll for the sample, with no vote yet. -/
def New (vdrs : List (NodeID × Nat)) : Poll :=
  { sample := vdrs, votes := [], failed := [] }

/-- Modelled from the spec: `Set.Add` creates and registers a poll and returns true, or
returns false and does nothing when the request ID is already registered. -/
def Set.Add (s : Set) (requestID : Nat) (vdrs : List (NodeID × Nat)) : Set × Bool :=
  if s.registered requestID then
    (s, false)
  else
    ({ polls := s.polls ++ [(requestID, New vdrs)] }, true)

/-- Modelled from the spec: `Set.Len`: the number of outstanding polls. -/
def Set.Len (s : Set) : Nat := s.polls.length

/-- A poll sent to the validators 1, 2 and 3, with weights 1, 1 and 2, in which validator 1
has voted for candidate 10. -/
def testPoll : Poll where
  sample := [(1, 1), (2, 1), (3, 2)]
  votes := [(1, [10])]
  failed := []

end poll

/-! ## vms/platformvm/txs/executor: `StandardTxExecutor.RemoveSubnetValidatorTx` -/

namespace txexecutor

/-- Modelled from the spec: `state.Staker` is declared outside the sources; these are the
fields `newValidRemoveSubnetValidatorTxVerifyEnv` sets. -/
structure Staker where
  TxID : ID
  NodeID : Nat
  Priority : Nat
deriving DecidableEq, Repr

/-- Modelled from the spec: `txs.RemoveSubnetValidatorTx` is declared outside the sources;
these are the fields `newRemoveSubnetValidatorTx` sets, inputs by their UTXO IDs,
outputs and the subnet authorisation by handles. -/
structure RemoveSubnetValidatorTx where
  Ins : List ID
  Outs : List Nat
  Subnet : ID
  NodeID : Nat
  SubnetAuth : Nat
deriving DecidableEq, Repr

/-- Modelled from the spec: `txs.Tx` is declared outside the sources: the unsigned
transaction, its credentials (by handles) and its ID. -/
structure Tx where
  Unsigned : RemoveSubnetValidatorTx
  Creds : List Nat
  TxID : ID
deriving DecidableEq, Repr

/-- The state mutations `TestStandardExecutorRemoveSubnetValidatorTx` expects or forbids on
the mocked `state.Diff`. -/
inductive Mutation where
  | DeleteCurrentValidator (staker : Staker)
  | DeletePendingValidator (staker : Staker)
  | DeleteUTXO (utxoID : ID)
  | AddUTXO (txID : ID) (outputIndex : Nat) (out : Nat)
deriving DecidableEq, Repr

/-- The mocked collaborators of `TestStandardExecutorRemoveSubnetValidatorTx`: syntactic
verification of the transaction, the reads of the mocked state, the priority test, the
mocked `fx.VerifyPermission` and the mocked flow checker. -/
structure Mocks where
  /-- Method `SyntacticVerify` of the transaction. -/
  SyntacticVerify : RemoveSubnetValidatorTx → Option GoError
  /-- Method `GetCurrentValidator(subnetID, nodeID)` of the state. -/
  GetCurrentValidator : ID → Nat → Except GoError Staker
  /-- Method `GetPendingValidator(subnetID, nodeID)` of the state. -/
  GetPendingValidator : ID → Nat → Except GoError Staker
  /-- Whether a staker priority is that of a permissioned subnet validator. -/
  IsPermissionedValidator : Nat → Bool
  /-- Method `GetTx(subnetID)` of the state, reduced to the owner of the subnet. -/
  GetTx : ID → Except GoError Nat
  /-- Method `VerifyPermission(tx, subnetAuth, cred, owner)` of the fx. -/
  VerifyPermission : RemoveSubnetValidatorTx → Nat → Nat → Nat → Option GoError
  /-- Method `VerifySpend(tx, state, ins, outs, creds, fees)` of the flow checker. -/
  VerifySpend : RemoveSubnetValidatorTx → List ID → List Nat → List Nat → Option GoError

/-- Variable `errNotValidator`, by its name. -/
def errNotValidator : GoError := .new "errNotValidator"

/-- Variable `errRemovePermissionlessValidator`, by its name. -/
def errRemovePermissionlessValidator : GoError := .new "errRemovePermissionlessValidator"

/-- Variable `errWrongNumberOfCredentials`, by its name. -/
def errWrongNumberOfCredentials : GoError := .new "errWrongNumberOfCredentials"

/-- Variable `errCantFindSubnet`, by its name. -/
def errCantFindSubnet : GoError := .new "errCantFindSubnet"

/-- Variable `errUnauthorizedSubnetModification`, by its name. -/
def errUnauthorizedSubnetModification : GoError := .new "errUnauthorizedSubnetModification"

/-- Variable `errFlowCheckFailed`, by its name. -/
def errFlowCheckFailed : GoError := .new "errFlowCheckFailed"

/-- The validator a `RemoveSubnetValidatorTx` removes: the current validator, else the
pending one (with whether it is current), else `errNotValidator`. -/
def findValidator (m : Mocks) (tx : RemoveSubnetValidatorTx) : Except GoError (Staker × Bool) :=
  match m.GetCurrentValidator tx.Subnet tx.NodeID with
  | .ok staker => .ok (staker, true)
  | .error _ =>
    match m.GetPendingValidator tx.Subnet tx.NodeID with
    | .ok staker => .ok (staker, false)
    | .error _ => .error errNotValidator

/-- The checks the test cases show before any mutation, in the order the cases fix:
syntactic verification, the validator lookup, the priority, the credential count, the
subnet lookup, the permission and the spend. -/
def verifyRemoval (m : Mocks) (tx : Tx) : Except GoError (Staker × Bool) :=
  match m.SyntacticVerify tx.Unsigned with
  | some err => .error err
  | none =>
    match findValidator m tx.Unsigned with
    | .error err => .error err
    | .ok (staker, isCurrent) =>
      if !m.IsPermissionedValidator staker.Priority then
        .error errRemovePermissionlessValidator
      else
        match tx.Creds.getLast? with
        | none => .error errWrongNumberOfCredentials
        | some cred =>
          match m.GetTx tx.Unsigned.Subnet with
          | .error _ => .error errCantFindSubnet
          | .ok owner =>
            match m.VerifyPermission tx.Unsigned tx.Unsigned.SubnetAuth cred owner with
            | some _ => .error errUnauthorizedSubnetModification
            | none =>
              match m.VerifySpend tx.Unsigned tx.Unsigned.Ins tx.Unsigned.Outs
                  tx.Creds.dropLast with
              | some _ => .error errFlowCheckFailed
              | none => .ok (staker, isCurrent)

/-- The mutations of a successful removal: the validator is deleted, every input UTXO is
deleted and every output is added as a UTXO of the transaction. -/
def removalMutations (tx : Tx) (staker : Staker) (isCurrent : Bool) : List Mutation :=
  [if isCurrent then Mutation.DeleteCurrentValidator staker
    else Mutation.DeletePendingValidator staker]
    ++ tx.Unsigned.Ins.map Mutation.DeleteUTXO
    ++ tx.Unsigned.Outs.enum.map (fun entry => Mutation.AddUTXO tx.TxID entry.1 entry.2)

/-- Modelled from the spec: `StandardTxExecutor.RemoveSubnetValidatorTx` is outside the
sources; this follows the cases of `TestStandardExecutorRemoveSubnetValidatorTx` for a
bootstrapped executor: the mutations made on the state, first to last, and the
returned error. -/
def StandardTxExecutor.RemoveSubnetValidatorTx (m : Mocks) (tx : Tx) : List Mutation × Option GoError :=
  match verifyRemoval m tx with
  | .error err => ([], some err)
  | .ok (staker, isCurrent) => (removalMutations tx staker isCurrent, none)

/-- The transaction of `newRemoveSubnetValidatorTx`: one input, one output, two
credentials. -/
def testTx : Tx where
  Unsigned := { Ins := [100], Outs := [200], Subnet := 5, NodeID := 6, SubnetAuth := 7 }
  Creds := [1, 2]
  TxID := 9

/-- The mocks of the case "valid tx": the node is a current, permissioned validator of the
subnet and every check passes. -/
def validMocks : Mocks where
  SyntacticVerify := fun _ => none
  GetCurrentValidator := fun _ _ => .ok ⟨3, 6, 0⟩
  GetPendingValidator := fun _ _ => .error (.new "not found")
  IsPermissionedValidator := fun priority => priority == 0
  GetTx := fun _ => .ok 8
  VerifyPermission := fun _ _ _ _ => none
  VerifySpend := fun _ _ _ _ => none

end txexecutor

/-! ## database/rpcdb and vms/rpcchainvm: error codes -/

/-- A non-nil value of the interface `error` as the operator `==` and a map with `error`
keys see it: a pointer to an error object (what `errors.New` and `fmt.Errorf` return),
equal to another value only when it is the same pointer; a comparable value that is
not a pointer, equal to another when the values are equal; or a value whose dynamic
type cannot be compared, which a map refuses as a key with a panic. -/
inductive ErrorValue where
  | pointer (addr : Nat)
  | value (v : GoError)
  | unhashable (v : GoError)
deriving DecidableEq, Repr

namespace database

/-- Variable `database.ErrNotFound`, set with `errors.New` outside the sources: a pointer
to an error object of its own. -/
def ErrNotFound : ErrorValue := .pointer 12

end database

namespace block

end block

namespace rpcchainvm

end rpcchainvm

namespace rpcdb

end rpcdb

/-! ## vms/platformvm/txs/executor: duration of a number of seconds -/

namespace txexecutor

/-- Constant `time.Second` of the Go library, in nanoseconds. -/
def Second : Int := 1000000000

/-- Constant `math.MaxUint32` of the Go library. -/
def MaxUint32 : Nat := 4294967295

/-- Constant `math.MaxInt64` of the Go library, the largest `time.Duration`. -/
def MaxInt64 : Int := 9223372036854775807

/-- The `int64` that a product of `int64` values wraps around to. -/
def wrapInt64 (x : Int) : Int := (x + 2 ^ 63) % 2 ^ 64 - 2 ^ 63

/-- The constant `math.MaxUint32 * time.Second` that `standard_tx_executor_test.go`
declares as a `time.Duration`. -/
def maxUint32Seconds : Int := (MaxUint32 : Int) * Second

/-- Modelled from the spec: the executor code that does the arithmetic is outside the
sources (only the constant declaration of the test file is); this is the expression
`time.Duration(n) * time.Second` for a `uint32` number of seconds `n`, an `int64`
product. -/
def secondsDuration (n : Nat) : Int := wrapInt64 ((n : Int) * Second)

end txexecutor

/-! ## utils/sampler: `weightedArrayElement` -/

namespace sampler

/-- Modelled from the spec: `weightedArrayElement` is declared outside the sources; this is
the field `TestWeightedArrayElementLess` sets. -/
structure weightedArrayElement where
  cumulativeWeight : Nat
deriving DecidableEq, Repr

/-- Modelled from the spec: `weightedArrayElement.Less` is outside the sources; this follows
`TestWeightedArrayElementLess`: the element with the larger cumulative weight is the
lesser one. -/
def weightedArrayElement.Less (e other : weightedArrayElement) : Bool :=
  decide (e.cumulativeWeight > other.cumulativeWeight)

end sampler

/-! # Theorems -/

/-! ## Theorems: snow/choices -/

namespace choices

/-- C1: `Accept` on a Rejected item returns the invalid-state-transition error
(from Rejected to Accepted), and `Reject` on an Accepted item returns the
invalid-state-transition error (from Accepted to Rejected); both are non-nil,
whatever the ID and the injected errors are. -/
theorem accept_rejected_reject_accepted_error (i : ID) (a r : Option GoError) :
    (TestDecidable.Accept ⟨i, a, r, .Rejected⟩).2
        = some (invalidTransition .Rejected .Accepted)
      ∧ (TestDecidable.Accept ⟨i, a, r, .Rejected⟩).2 ≠ none
      ∧ (TestDecidable.Reject ⟨i, a, r, .Accepted⟩).2
        = some (invalidTransition .Accepted .Rejected)
      ∧ (TestDecidable.Reject ⟨i, a, r, .Accepted⟩).2 ≠ none := by
  simp [TestDecidable.Accept, TestDecidable.Reject]

/-- C2 (as stated, refuted): with nil injected errors, `Accept` on an Unknown item does
not succeed: it returns the invalid-state-transition error and the status stays
Unknown; so does `Reject`. -/
theorem accept_reject_unknown_fail :
    TestDecidable.Accept ⟨0, none, none, .Unknown⟩
        = (⟨0, none, none, .Unknown⟩, some (invalidTransition .Unknown .Accepted))
      ∧ ¬ ((TestDecidable.Accept ⟨0, none, none, .Unknown⟩).2 = none
            ∧ (TestDecidable.Accept ⟨0, none, none, .Unknown⟩).1.StatusV = .Accepted)
      ∧ TestDecidable.Reject ⟨0, none, none, .Unknown⟩
        = (⟨0, none, none, .Unknown⟩, some (invalidTransition .Unknown .Rejected))
      ∧ ¬ ((TestDecidable.Reject ⟨0, none, none, .Unknown⟩).2 = none
            ∧ (TestDecidable.Reject ⟨0, none, none, .Unknown⟩).1.StatusV = .Rejected) := by
  decide

/-- C2 (amended): for a TestDecidable whose injected errors are nil, `Accept` fails
exactly when the status is Unknown or Rejected and `Reject` fails exactly when the
status is Unknown or Accepted; `Accept` returns no error and leaves the status
Accepted (ID and injected errors untouched) when the prior status is Processing or
Accepted, `Reject` returns no error and leaves the status Rejected when the prior
status is Processing or Rejected; on an Unknown item both return the
invalid-state-transition error and leave the item as it was. -/
theorem accept_reject_nil_injected (d : TestDecidable)
    (ha : d.AcceptV = none) (hr : d.RejectV = none) :
    (d.Accept.2 ≠ none ↔ (d.StatusV = .Unknown ∨ d.StatusV = .Rejected))
      ∧ (d.Reject.2 ≠ none ↔ (d.StatusV = .Unknown ∨ d.StatusV = .Accepted))
      ∧ ((d.StatusV = .Processing ∨ d.StatusV = .Accepted) →
          d.Accept = ({ d with StatusV := .Accepted }, none))
      ∧ ((d.StatusV = .Processing ∨ d.StatusV = .Rejected) →
          d.Reject = ({ d with StatusV := .Rejected }, none))
      ∧ (d.StatusV = .Unknown →
          d.Accept = (d, some (invalidTransition .Unknown .Accepted))
            ∧ d.Reject = (d, some (invalidTransition .Unknown .Rejected))) := by
  obtain ⟨i, a, r, st⟩ := d
  simp only at ha hr
  subst ha hr
  cases st <;> simp [TestDecidable.Accept, TestDecidable.Reject]

/-- C2 (amended), at a Processing item with ID 7 and nil injected errors. -/
theorem accept_reject_nil_injected_witness :
    TestDecidable.Accept ⟨7, none, none, .Processing⟩ = (⟨7, none, none, .Accepted⟩, none)
      ∧ TestDecidable.Reject ⟨7, none, none, .Processing⟩
          = (⟨7, none, none, .Rejected⟩, none) :=
  ⟨(accept_reject_nil_injected ⟨7, none, none, .Processing⟩ rfl rfl).2.2.1 (Or.inl rfl),
   (accept_reject_nil_injected ⟨7, none, none, .Processing⟩ rfl rfl).2.2.2.1 (Or.inl rfl)⟩

/-- C3: `Accept` is idempotent: the receiver after two calls is the receiver after one
call (ID, status and injected errors), the second call returns what the first
returned, and so a second call after a successful first call succeeds; the same
holds for `Reject`. -/
theorem accept_reject_idempotent (d : TestDecidable) :
    (d.Accept.1.Accept.1 = d.Accept.1
        ∧ d.Accept.1.Accept.2 = d.Accept.2
        ∧ (d.Accept.2 = none → d.Accept.1.Accept.2 = none))
      ∧ (d.Reject.1.Reject.1 = d.Reject.1
        ∧ d.Reject.1.Reject.2 = d.Reject.2
        ∧ (d.Reject.2 = none → d.Reject.1.Reject.2 = none)) := by
  obtain ⟨i, a, r, st⟩ := d
  cases st <;> simp [TestDecidable.Accept, TestDecidable.Reject]

/-- C4: a terminal status is immutable: from status Accepted (respectively Rejected)
every finite sequence of `Accept` and `Reject` calls ends in status Accepted
(respectively Rejected); and a single call changes the status only from Processing,
`Accept` to Accepted and `Reject` to Rejected. -/
theorem terminal_status_immutable (d : TestDecidable) (cs : List Call) :
    (d.StatusV = .Accepted → (d.run cs).StatusV = .Accepted)
      ∧ (d.StatusV = .Rejected → (d.run cs).StatusV = .Rejected)
      ∧ (d.Accept.1.StatusV ≠ d.StatusV →
          d.StatusV = .Processing ∧ d.Accept.1.StatusV = .Accepted)
      ∧ (d.Reject.1.StatusV ≠ d.StatusV →
          d.StatusV = .Processing ∧ d.Reject.1.StatusV = .Rejected) := by
  refine ⟨?_, ?_, ?_, ?_⟩
  · intro h
    induction cs generalizing d with
    | nil => simpa [TestDecidable.run] using h
    | cons c cs ih =>
      have hs : (d.step c).StatusV = .Accepted := by
        cases c <;> simp [TestDecidable.step, TestDecidable.Accept, TestDecidable.Reject, h]
      simpa [TestDecidable.run] using ih (d.step c) hs
  · intro h
    induction cs generalizing d with
    | nil => simpa [TestDecidable.run] using h
    | cons c cs ih =>
      have hs : (d.step c).StatusV = .Rejected := by
        cases c <;> simp [TestDecidable.step, TestDecidable.Accept, TestDecidable.Reject, h]
      simpa [TestDecidable.run] using ih (d.step c) hs
  · obtain ⟨i, a, r, st⟩ := d
    cases st <;> simp [TestDecidable.Accept]
  · obtain ⟨i, a, r, st⟩ := d
    cases st <;> simp [TestDecidable.Reject]

/-- C25 (as stated, refuted): on a Processing item with an injected error, `Accept`
returns that non-nil error and the status has become Accepted; `Reject` likewise
returns its injected error and the status has become Rejected. -/
theorem failed_transition_changes_status :
    TestDecidable.Accept ⟨0, some (.new "injected"), none, .Processing⟩
        = (⟨0, some (.new "injected"), none, .Accepted⟩, some (.new "injected"))
      ∧ ¬ ((TestDecidable.Accept ⟨0, some (.new "injected"), none, .Processing⟩).2 ≠ none →
            (TestDecidable.Accept ⟨0, some (.new "injected"), none, .Processing⟩).1.StatusV
              = .Processing)
      ∧ TestDecidable.Reject ⟨0, none, some (.new "injected"), .Processing⟩
        = (⟨0, none, some (.new "injected"), .Rejected⟩, some (.new "injected"))
      ∧ ¬ ((TestDecidable.Reject ⟨0, none, some (.new "injected"), .Processing⟩).2 ≠ none →
            (TestDecidable.Reject ⟨0, none, some (.new "injected"), .Processing⟩).1.StatusV
              = .Processing) := by
  decide

/-- C25 (amended): a refused transition is atomic: when `Accept` is called on an Unknown
or Rejected item, or returns a non-nil error while the injected error `AcceptV` is nil,
the item is the same after the call as before it, and likewise for `Reject` (Unknown
or Accepted, `RejectV`); the ID is never changed; and an injected error is returned
only after the status has been set, to Accepted by `Accept` and to Rejected by
`Reject`. -/
theorem refused_transition_atomic (d : TestDecidable) :
    ((d.StatusV = .Unknown ∨ d.StatusV = .Rejected) → d.Accept.1 = d ∧ d.Accept.2 ≠ none)
      ∧ ((d.StatusV = .Unknown ∨ d.StatusV = .Accepted) → d.Reject.1 = d ∧ d.Reject.2 ≠ none)
      ∧ (d.AcceptV = none → d.Accept.2 ≠ none → d.Accept.1 = d)
      ∧ (d.RejectV = none → d.Reject.2 ≠ none → d.Reject.1 = d)
      ∧ d.Accept.1.IDV = d.IDV ∧ d.Reject.1.IDV = d.IDV
      ∧ ((d.StatusV = .Processing ∨ d.StatusV = .Accepted) →
          d.Accept = ({ d with StatusV := .Accepted }, d.AcceptV))
      ∧ ((d.StatusV = .Processing ∨ d.StatusV = .Rejected) →
          d.Reject = ({ d with StatusV := .Rejected }, d.RejectV)) := by
  obtain ⟨i, a, r, st⟩ := d
  cases st <;> simp [TestDecidable.Accept, TestDecidable.Reject]

/-- C25 (amended), on a Rejected item with injected errors: `Accept` is refused and the
item is unchanged. -/
theorem refused_transition_atomic_witness :
    (TestDecidable.Accept ⟨4, some (.new "injected"), none, .Rejected⟩).1
        = ⟨4, some (.new "injected"), none, .Rejected⟩
      ∧ (TestDecidable.Accept ⟨4, some (.new "injected"), none, .Rejected⟩).2 ≠ none :=
  (refused_transition_atomic ⟨4, some (.new "injected"), none, .Rejected⟩).1 (Or.inr rfl)

end choices

/-! ## Theorems: snow/consensus/snowstorm -/

namespace snowstorm

/-- The condition under which `Update` goes on to call `g.accept`. -/
theorem update_guard_iff {W : Type} (env : Env W) (s : St W) :
    (s.a.rejected || s.a.deps.card != 0 || env.Errored s.w) = false ↔
      (s.a.deps = ∅ ∧ s.a.rejected = false ∧ env.Errored s.w = false) := by
  cases hr : s.a.rejected <;> cases he : env.Errored s.w <;>
    simp [bne_iff_ne, Finset.card_eq_zero]

/-- After any sequence of calls a rejected acceptor is still rejected and no call to
`g.accept` has been added. -/
theorem run_rejected {W : Type} (env : Env W) (ops : List Op) (s : St W)
    (h : s.a.rejected = true) :
    (run env s ops).a.rejected = true ∧ (run env s ops).accepts = s.accepts
      ∧ (run env s ops).w = s.w := by
  induction ops generalizing s with
  | nil => simp [run, h]
  | cons op ops ih =>
    have hs : (step env s op).a.rejected = true ∧ (step env s op).accepts = s.accepts
        ∧ (step env s op).w = s.w := by
      cases op <;> simp [step, Fulfill, Abandon, Update, h]
    have := ih (step env s op) hs.1
    simp only [run, List.foldl_cons] at this ⊢
    rw [this.1, this.2.1, this.2.2, hs.2.1, hs.2.2]
    simp

/-- C5: `Update` calls `g.accept` for `txID` if and only if the dependency set is empty,
the acceptor is not rejected and no error is recorded; it then calls it once, with
`txID`, and records the returned error with `errs.Add`; in every other case it leaves
the whole state as it was (no call, nothing recorded).  `Fulfill id` does the same
with respect to the dependency set after `id` is removed, and changes nothing but
that set when it makes no call. -/
theorem update_fulfill_accept_iff {W : Type} (env : Env W) (s : St W) (id : ID) :
    ((Update env s).accepts ≠ s.accepts ↔
        (s.a.deps = ∅ ∧ s.a.rejected = false ∧ env.Errored s.w = false))
      ∧ ((s.a.deps = ∅ ∧ s.a.rejected = false ∧ env.Errored s.w = false) →
          Update env s =
            { a := s.a
              w := env.Add (env.accept s.w s.a.txID).1 (env.accept s.w s.a.txID).2
              accepts := s.a.txID :: s.accepts })
      ∧ (¬ (s.a.deps = ∅ ∧ s.a.rejected = false ∧ env.Errored s.w = false) →
          Update env s = s)
      ∧ ((Fulfill env s id).accepts ≠ s.accepts ↔
          (s.a.deps.erase id = ∅ ∧ s.a.rejected = false ∧ env.Errored s.w = false))
      ∧ ((s.a.deps.erase id = ∅ ∧ s.a.rejected = false ∧ env.Errored s.w = false) →
          Fulfill env s id =
            { a := { s.a with deps := s.a.deps.erase id }
              w := env.Add (env.accept s.w s.a.txID).1 (env.accept s.w s.a.txID).2
              accepts := s.a.txID :: s.accepts })
      ∧ (¬ (s.a.deps.erase id = ∅ ∧ s.a.rejected = false ∧ env.Errored s.w = false) →
          Fulfill env s id = { s with a := { s.a with deps := s.a.deps.erase id } }) := by
  have key : ∀ t : St W,
      ((Update env t).accepts ≠ t.accepts ↔
          (t.a.deps = ∅ ∧ t.a.rejected = false ∧ env.Errored t.w = false))
        ∧ ((t.a.deps = ∅ ∧ t.a.rejected = false ∧ env.Errored t.w = false) →
            Update env t =
              { a := t.a
                w := env.Add (env.accept t.w t.a.txID).1 (env.accept t.w t.a.txID).2
                accepts := t.a.txID :: t.accepts })
        ∧ (¬ (t.a.deps = ∅ ∧ t.a.rejected = false ∧ env.Errored t.w = false) →
            Update env t = t) := by
    intro t
    have hg := update_guard_iff env t
    by_cases hc : (t.a.deps = ∅ ∧ t.a.rejected = false ∧ env.Errored t.w = false)
    · have hf := hg.2 hc
      have hu : Update env t =
          { a := t.a
            w := env.Add (env.accept t.w t.a.txID).1 (env.accept t.w t.a.txID).2
            accepts := t.a.txID :: t.accepts } := by
        simp [Update, hf]
      refine ⟨⟨fun _ => hc, fun _ => ?_⟩, fun _ => hu, fun hn => absurd hc hn⟩
      rw [hu]
      simp
    · have hf : (t.a.rejected || t.a.deps.card != 0 || env.Errored t.w) = true := by
        cases hb : (t.a.rejected || t.a.deps.card != 0 || env.Errored t.w)
        · exact absurd (hg.1 hb) hc
        · rfl
      have hu : Update env t = t := by simp [Update, hf]
      refine ⟨⟨fun hne => absurd (by rw [hu]) hne, fun h => absurd h hc⟩,
        fun h => absurd h hc, fun _ => hu⟩
  refine ⟨(key s).1, (key s).2.1, (key s).2.2, ?_, ?_, ?_⟩
  · exact (key { s with a := { s.a with deps := s.a.deps.erase id } }).1
  · exact (key { s with a := { s.a with deps := s.a.deps.erase id } }).2.1
  · exact (key { s with a := { s.a with deps := s.a.deps.erase id } }).2.2

/-- C5, on an acceptor of transaction 8 waiting on transaction 3 alone: `Update` makes no
call, `Fulfill 5` makes no call, and `Fulfill 3` calls `g.accept` once, for 8. -/
theorem update_fulfill_accept_iff_witness :
    (Update (testEnv fun _ => none) testSt).accepts = []
      ∧ (Fulfill (testEnv fun _ => none) testSt 5).accepts = []
      ∧ (Fulfill (testEnv fun _ => none) testSt 3).accepts = [8] :=
  ⟨congrArg St.accepts
      ((update_fulfill_accept_iff (testEnv fun _ => none) testSt 3).2.2.1 (by decide)),
   congrArg St.accepts
      ((update_fulfill_accept_iff (testEnv fun _ => none) testSt 5).2.2.2.2.2 (by decide)),
   congrArg St.accepts
      ((update_fulfill_accept_iff (testEnv fun _ => none) testSt 3).2.2.2.2.1
        ⟨by decide, rfl, rfl⟩)⟩

/-- C6: `Abandon` marks the acceptor rejected whatever its dependency set is, changing
nothing else; and from the state after `Abandon` no sequence of `Fulfill`, `Abandon`
and `Update` calls adds a call to `g.accept` or touches the shared state, and the
acceptor stays rejected, also when the sequence empties the dependency set. -/
theorem abandon_permanent {W : Type} (env : Env W) (s : St W) (id : ID) (ops : List Op) :
    Abandon s id = { s with a := { s.a with rejected := true } }
      ∧ (Abandon s id).a.deps = s.a.deps
      ∧ (run env (Abandon s id) ops).accepts = s.accepts
      ∧ (run env (Abandon s id) ops).w = s.w
      ∧ (run env (Abandon s id) ops).a.rejected = true := by
  have h := run_rejected env ops (Abandon s id) rfl
  exact ⟨rfl, rfl, h.2.1, h.2.2, h.1⟩

/-- C6, on an acceptor of transaction 8 waiting on transaction 3 alone: once abandoned,
fulfilling 3 empties the dependency set and still no call to `g.accept` is made, where
the same two calls on the acceptor not abandoned call `g.accept` for 8 each. -/
theorem abandon_permanent_witness :
    (run (testEnv fun _ => none) (Abandon testSt 3) [.fulfill 3, .update]).accepts = []
      ∧ (run (testEnv fun _ => none) (Abandon testSt 3) [.fulfill 3, .update]).a.deps = ∅
      ∧ (run (testEnv fun _ => none) testSt [.fulfill 3, .update]).accepts = [8, 8] :=
  ⟨(abandon_permanent (testEnv fun _ => none) testSt 3 [.fulfill 3, .update]).2.2.1,
   by decide, by decide⟩

end snowstorm

/-! ## Theorems: genesis -/

namespace genesis

/-- C7: for a network ID equal to the Mainnet, Tahoe or Local ID, and for every path or
content, `FromFile` and `FromFlag` return nil bytes, the empty asset ID and the
(non-nil) error for a standard network, and make no call to `GetConfigFile`,
`GetConfigContent`, `validateConfig` or `FromConfig`. -/
theorem standard_network_refused (env : Env) (networkID : Nat) (arg : String)
    (h : networkID = env.MainnetID ∨ networkID = env.TahoeID ∨ networkID = env.LocalID) :
    FromFile env networkID arg
        = ((none, ID.Empty, some (errStandardNetwork env networkID)), [])
      ∧ FromFlag env networkID arg
        = ((none, ID.Empty, some (errStandardNetwork env networkID)), [])
      ∧ (FromFile env networkID arg).1.2.2 ≠ none
      ∧ (FromFlag env networkID arg).1.2.2 ≠ none := by
  have hg : (networkID == env.MainnetID || networkID == env.TahoeID
      || networkID == env.LocalID) = true := by
    rcases h with h | h | h <;> simp [h]
  simp [FromFile, FromFlag, hg]

/-- C7, on the Local network of `testEnv` with a path and a content that would load and
validate: both calls are refused; on network 1337 the same arguments are loaded,
validated and built. -/
theorem standard_network_refused_witness :
    (FromFile testEnv 12345 "genesis.json"
        = ((none, ID.Empty, some (errStandardNetwork testEnv 12345)), [])
      ∧ FromFlag testEnv 12345 "content"
        = ((none, ID.Empty, some (errStandardNetwork testEnv 12345)), []))
      ∧ FromFile testEnv 1337 "genesis.json"
        = ((some [1], 9, none),
            [.GetConfigFile "genesis.json", .validateConfig 1337, .FromConfig]) := by
  refine ⟨⟨?_, ?_⟩, ?_⟩
  · exact (standard_network_refused testEnv 12345 "genesis.json" (Or.inr (Or.inr rfl))).1
  · exact (standard_network_refused testEnv 12345 "content" (Or.inr (Or.inr rfl))).2.1
  · decide

/-- Membership in the set the first loop of `validateInitialStakedFunds` builds. -/
theorem mem_allocationSet (allocations : List Allocation) (init : Finset ShortID)
    (a : ShortID) :
    a ∈ allocations.foldl (fun st allocation => insert allocation.DJTXAddr st) init ↔
      a ∈ init ∨ ∃ al ∈ allocations, al.DJTXAddr = a := by
  induction allocations generalizing init with
  | nil => simp
  | cons al rest ih =>
    rw [List.foldl_cons, ih]
    simp only [Finset.mem_insert, List.mem_cons, exists_eq_or_imp]
    constructor
    · rintro ((h | h) | h)
      · exact Or.inr (Or.inl h.symm)
      · exact Or.inl h
      · exact Or.inr (Or.inr h)
    · rintro (h | h | h)
      · exact Or.inl (Or.inr h)
      · exact Or.inl (Or.inl h.symm)
      · exact Or.inr h

/-- The second loop of `validateInitialStakedFunds` returns nil exactly when the stakers
still to visit are new, pairwise different and all in the allocation set. -/
theorem stakedFundsLoop_eq_none (env : Env) (config : Config) (allocationSet : Finset ShortID)
    (seen : Finset ShortID) (l : List ShortID) :
    stakedFundsLoop env config allocationSet seen l = none ↔
      (∀ a ∈ l, a ∉ seen) ∧ l.Nodup ∧ ∀ a ∈ l, a ∈ allocationSet := by
  induction l generalizing seen with
  | nil => simp [stakedFundsLoop]
  | cons s rest ih =>
    by_cases h1 : s ∈ seen
    · simp [stakedFundsLoop, h1]
    · by_cases h2 : s ∈ allocationSet
      · simp only [stakedFundsLoop, h1, h2, if_false, not_true_eq_false, ih,
          Finset.mem_insert, List.mem_cons, List.nodup_cons, forall_eq_or_imp, not_or,
          not_false_eq_true, true_and]
        constructor
        · rintro ⟨h3, h4, h5⟩
          exact ⟨fun a ha => (h3 a ha).2, ⟨fun hs => (h3 s hs).1 rfl, h4⟩, h5⟩
        · rintro ⟨h3, ⟨h4, h5⟩, h6⟩
          exact ⟨fun a ha => ⟨fun hEq => h4 (hEq ▸ ha), h3 a ha⟩, h5, h6⟩
      · simp [stakedFundsLoop, h1, h2]

/-- C17: `validateInitialStakedFunds` returns nil if and only if `InitialStakedFunds` is
non-empty, holds no address twice, and each of its addresses is the `DJTXAddr` of some
allocation; so the result is nil for one config exactly when it is for any other config
with the same `InitialStakedFunds` and the same set of allocation addresses, however
often each address occurs among the allocations. -/
theorem validateInitialStakedFunds_eq_none_iff (env : Env) (config : Config) :
    (validateInitialStakedFunds env config = none ↔
        config.InitialStakedFunds ≠ [] ∧ config.InitialStakedFunds.Nodup
          ∧ ∀ a ∈ config.InitialStakedFunds, ∃ al ∈ config.Allocations, al.DJTXAddr = a)
      ∧ ∀ other : Config, other.InitialStakedFunds = config.InitialStakedFunds →
          (∀ a, (∃ al ∈ other.Allocations, al.DJTXAddr = a)
            ↔ ∃ al ∈ config.Allocations, al.DJTXAddr = a) →
          (validateInitialStakedFunds env other = none
            ↔ validateInitialStakedFunds env config = none) := by
  have key : ∀ c : Config, validateInitialStakedFunds env c = none ↔
      c.InitialStakedFunds ≠ [] ∧ c.InitialStakedFunds.Nodup
        ∧ ∀ a ∈ c.InitialStakedFunds, ∃ al ∈ c.Allocations, al.DJTXAddr = a := by
    intro c
    unfold validateInitialStakedFunds
    by_cases h : c.InitialStakedFunds = []
    · simp [h]
    · have hl : (c.InitialStakedFunds.length == 0) = false := by
        simpa [List.length_eq_zero] using h
      simp only [hl, Bool.false_eq_true, if_false, stakedFundsLoop_eq_none,
        mem_allocationSet, Finset.not_mem_empty, not_false_eq_true, implies_true,
        true_and, false_or, ne_eq, h]
  refine ⟨key config, ?_⟩
  intro other hf ha
  rw [key other, key config, hf]
  simp only [ha]

/-- C17, on a config that stakes address 22 with two allocations to 22: the result is
nil; it is an error when 22 is staked twice, and when the staked address 23 has no
allocation. -/
theorem validateInitialStakedFunds_eq_none_iff_witness :
    validateInitialStakedFunds testEnv
        { testConfig with Allocations := [⟨11, 22, 5, []⟩, ⟨12, 22, 6, []⟩] } = none
      ∧ validateInitialStakedFunds testEnv { testConfig with InitialStakedFunds := [22, 22] }
          ≠ none
      ∧ validateInitialStakedFunds testEnv { testConfig with InitialStakedFunds := [22, 23] }
          ≠ none := by
  refine ⟨?_, ?_, ?_⟩
  · exact (validateInitialStakedFunds_eq_none_iff testEnv
      { testConfig with Allocations := [⟨11, 22, 5, []⟩, ⟨12, 22, 6, []⟩] }).1.2
        (by decide)
  · decide
  · decide

/-- C18: when `validateConfig` returns nil, the network IDs agree, the initial supply is
computed without error and is not zero, the initial stake duration is positive, there
is an initial staker, `validateInitialStakedFunds` returns nil and the C-Chain genesis
is not empty. -/
theorem validateConfig_sound (env : Env) (networkID : Nat) (config : Config)
    (h : validateConfig env networkID config = none) :
    networkID = config.NetworkID
      ∧ (∃ initialSupply, env.InitialSupply config = .ok initialSupply ∧ initialSupply ≠ 0)
      ∧ 0 < config.InitialStakeDuration
      ∧ config.InitialStakers ≠ []
      ∧ validateInitialStakedFunds env config = none
      ∧ config.CChainGenesis.utf8ByteSize ≠ 0
      ∧ config.CChainGenesis ≠ "" := by
  unfold validateConfig at h
  by_cases h1 : (networkID != config.NetworkID) = true
  · rw [if_pos h1] at h
    exact absurd h (by simp)
  rw [if_neg h1] at h
  have hn : networkID = config.NetworkID := by simpa using h1
  cases hs : env.InitialSupply config with
  | error e =>
    rw [hs] at h
    exact absurd h (by simp)
  | ok supply =>
    rw [hs] at h
    dsimp only at h
    by_cases h2 : (supply == 0) = true
    · rw [if_pos h2] at h
      exact absurd h (by simp)
    rw [if_neg h2] at h
    by_cases h3 : env.Since (toInt64 config.StartTime) < 0
    · rw [if_pos h3] at h
      exact absurd h (by simp)
    rw [if_neg h3] at h
    by_cases h4 : (config.InitialStakeDuration == 0) = true
    · rw [if_pos h4] at h
      exact absurd h (by simp)
    rw [if_neg h4] at h
    by_cases h5 : (config.InitialStakers.length == 0) = true
    · rw [if_pos h5] at h
      exact absurd h (by simp)
    rw [if_neg h5] at h
    by_cases h6 : (config.InitialStakeDurationOffset
        * toUint64 (config.InitialStakers.length - 1)) % 2 ^ 64 > config.InitialStakeDuration
    · rw [if_pos h6] at h
      exact absurd h (by simp)
    rw [if_neg h6] at h
    cases hv : validateInitialStakedFunds env config with
    | some e =>
      rw [hv] at h
      exact absurd h (by simp)
    | none =>
      rw [hv] at h
      dsimp only at h
      by_cases h7 : (config.CChainGenesis.utf8ByteSize == 0) = true
      · rw [if_pos h7] at h
        exact absurd h (by simp)
      have hg : config.CChainGenesis.utf8ByteSize ≠ 0 := by simpa using h7
      refine ⟨hn, ⟨supply, rfl, by simpa using h2⟩, ?_, ?_, rfl, hg, ?_⟩
      · have : config.InitialStakeDuration ≠ 0 := by simpa using h4
        omega
      · intro hnil
        simp [hnil] at h5
      · intro he
        rw [he] at hg
        exact hg rfl

/-- C18, on `testConfig` in `testEnv`, which `validateConfig` accepts. -/
theorem validateConfig_sound_witness :
    validateConfig testEnv 1337 testConfig = none
      ∧ testConfig.InitialStakers ≠ []
      ∧ validateInitialStakedFunds testEnv testConfig = none :=
  ⟨by decide,
   (validateConfig_sound testEnv 1337 testConfig (by decide)).2.2.2.1,
   (validateConfig_sound testEnv 1337 testConfig (by decide)).2.2.2.2.1⟩

/-! ### `splitAllocations` -/

/-- Addition of `uint64` values that does not wrap around. -/
theorem add64_eq {a b : Nat} (h : a + b < 2 ^ 64) : add64 a b = a + b := by
  unfold add64
  exact Nat.mod_eq_of_lt h

/-- Subtraction of `uint64` values that does not wrap around. -/
theorem sub64_eq {a b : Nat} (hb : b ≤ a) (ha : a < 2 ^ 64) : sub64 a b = a - b := by
  unfold sub64
  have h1 : a % 2 ^ 64 = a := Nat.mod_eq_of_lt ha
  have h2 : b % 2 ^ 64 = b := Nat.mod_eq_of_lt (by omega)
  rw [h1, h2]
  have h3 : a + 2 ^ 64 - b = (a - b) + 2 ^ 64 := by omega
  rw [h3, Nat.add_mod_right]
  exact Nat.mod_eq_of_lt (by omega)

/-- The amount of two schedules put together. -/
theorem scheduleAmount_append (l1 l2 : List LockedAmount) :
    scheduleAmount (l1 ++ l2) = scheduleAmount l1 + scheduleAmount l2 := by
  simp [scheduleAmount]

/-- The amount of two lists of allocations put together. -/
theorem allocationsAmount_append (l1 l2 : List Allocation) :
    allocationsAmount (l1 ++ l2) = allocationsAmount l1 + allocationsAmount l2 := by
  simp [allocationsAmount]

/-- The amount of two lists of groups put together. -/
theorem groupsAmount_append (l1 l2 : List (List Allocation)) :
    groupsAmount (l1 ++ l2) = groupsAmount l1 + groupsAmount l2 := by
  simp [groupsAmount]

/-- The rounds given to the innermost loop are enough, whatever the amounts are: run with
at least one round and at least as many rounds as groups are missing to `numSplits`,
it ends with its condition false, as the loop of the source does. -/
theorem splitWhile_exit (allocation : Allocation) (nodeWeight numSplits fuel : Nat)
    (st : SplitState) (unlock : LockedAmount) (h1 : 1 ≤ fuel)
    (h2 : numSplits ≤ fuel + st.allNodeAllocations.length) :
    ¬ (add64 (splitWhile allocation nodeWeight numSplits fuel st unlock).1.currentNodeAmount
            (splitWhile allocation nodeWeight numSplits fuel st unlock).2.Amount > nodeWeight
        ∧ (splitWhile allocation nodeWeight numSplits fuel st unlock).1.allNodeAllocations.length
            < numSplits - 1) := by
  induction fuel generalizing st unlock with
  | zero => omega
  | succ fuel ih =>
    by_cases hcond : add64 st.currentNodeAmount unlock.Amount > nodeWeight
        ∧ st.allNodeAllocations.length < numSplits - 1
    · rw [splitWhile, if_pos hcond]
      dsimp only
      apply ih
      · omega
      · simp only [List.length_append, List.length_singleton]
        omega
    · rw [splitWhile, if_neg hcond]
      exact hcond

/-- The innermost loop, when no sum wraps around: it keeps the invariant and the total
amount (finished groups, group being filled, rest of the unlock), keeps the locktime,
and with enough rounds it ends with its condition false. -/
theorem splitWhile_spec (allocation : Allocation) (nodeWeight numSplits : Nat)
    (hw : nodeWeight < 2 ^ 64) (fuel : Nat) (st : SplitState) (unlock : LockedAmount)
    (hinv : SplitInv nodeWeight numSplits
      (scheduleAmount st.currentAllocation.UnlockSchedule) st)
    (hq : groupsAmount st.allNodeAllocations + st.currentNodeAmount + unlock.Amount
      < 2 ^ 64) :
    SplitInv nodeWeight numSplits
        (scheduleAmount
          (splitWhile allocation nodeWeight numSplits fuel st unlock).1.currentAllocation.UnlockSchedule)
        (splitWhile allocation nodeWeight numSplits fuel st unlock).1
      ∧ groupsAmount (splitWhile allocation nodeWeight numSplits fuel st unlock).1.allNodeAllocations
          + (splitWhile allocation nodeWeight numSplits fuel st unlock).1.currentNodeAmount
          + (splitWhile allocation nodeWeight numSplits fuel st unlock).2.Amount
        = groupsAmount st.allNodeAllocations + st.currentNodeAmount + unlock.Amount
      ∧ (1 ≤ fuel → numSplits ≤ fuel + st.allNodeAllocations.length →
          ¬ ((splitWhile allocation nodeWeight numSplits fuel st unlock).1.currentNodeAmount
                + (splitWhile allocation nodeWeight numSplits fuel st unlock).2.Amount
                > nodeWeight
              ∧ (splitWhile allocation nodeWeight numSplits fuel st unlock).1.allNodeAllocations.length
                < numSplits - 1)) := by
  induction fuel generalizing st unlock with
  | zero =>
    refine ⟨by simpa [splitWhile] using hinv, by simp [splitWhile], ?_⟩
    intro h
    omega
  | succ fuel ih =>
    obtain ⟨ha, hb, hc, hd⟩ := hinv
    have hadd : add64 st.currentNodeAmount unlock.Amount
        = st.currentNodeAmount + unlock.Amount := add64_eq (by omega)
    by_cases hcond : add64 st.currentNodeAmount unlock.Amount > nodeWeight
        ∧ st.allNodeAllocations.length < numSplits - 1
    · rw [splitWhile, if_pos hcond]
      have hle : st.currentNodeAmount ≤ nodeWeight := hd hcond.2
      have hsub : sub64 nodeWeight st.currentNodeAmount = nodeWeight - st.currentNodeAmount :=
        sub64_eq hle hw
      have hgt : nodeWeight - st.currentNodeAmount < unlock.Amount := by
        have := hcond.1
        rw [hadd] at this
        omega
      have hsub2 : sub64 unlock.Amount (nodeWeight - st.currentNodeAmount)
          = unlock.Amount - (nodeWeight - st.currentNodeAmount) :=
        sub64_eq (by omega) (by omega)
      dsimp only
      rw [hsub, hsub2]
      have hgroup : allocationsAmount (st.currentNodeAllocation ++
          [{ st.currentAllocation with
              UnlockSchedule := st.currentAllocation.UnlockSchedule
                ++ [⟨nodeWeight - st.currentNodeAmount, unlock.Locktime⟩] }]) = nodeWeight := by
        rw [allocationsAmount_append]
        simp only [allocationsAmount, scheduleAmount, List.map_cons, List.map_nil,
          List.sum_cons, List.sum_nil, List.map_append, List.sum_append, Nat.add_zero]
        simp only [allocationsAmount, scheduleAmount] at ha
        omega
      have hinv2 : SplitInv nodeWeight numSplits
          (scheduleAmount (freshAllocation allocation).UnlockSchedule)
          { allNodeAllocations := st.allNodeAllocations ++ [st.currentNodeAllocation ++
              [{ st.currentAllocation with
                  UnlockSchedule := st.currentAllocation.UnlockSchedule
                    ++ [⟨nodeWeight - st.currentNodeAmount, unlock.Locktime⟩] }]]
            currentNodeAllocation := []
            currentNodeAmount := 0
            currentAllocation := freshAllocation allocation } := by
        refine ⟨by simp [allocationsAmount, scheduleAmount, freshAllocation], ?_, ?_, ?_⟩
        · intro g hg
          simp only [List.mem_append, List.mem_singleton] at hg
          rcases hg with hg | hg
          · exact hb g hg
          · rw [hg]
            exact hgroup
        · simp only [List.length_append, List.length_singleton]
          omega
        · intro _
          exact Nat.zero_le _
      have hq2 : groupsAmount (st.allNodeAllocations ++ [st.currentNodeAllocation ++
              [{ st.currentAllocation with
                  UnlockSchedule := st.currentAllocation.UnlockSchedule
                    ++ [⟨nodeWeight - st.currentNodeAmount, unlock.Locktime⟩] }]])
            + 0 + (unlock.Amount - (nodeWeight - st.currentNodeAmount))
          = groupsAmount st.allNodeAllocations + st.currentNodeAmount + unlock.Amount := by
        rw [groupsAmount_append]
        simp only [groupsAmount, List.map_cons, List.map_nil, List.sum_cons, List.sum_nil,
          hgroup]
        omega
      obtain ⟨i1, i2, i3⟩ := ih _ ⟨_, unlock.Locktime⟩ hinv2 (by rw [hq2]; exact hq)
      refine ⟨i1, by rw [i2]; exact hq2, ?_⟩
      intro h1 h2
      apply i3
      · omega
      · simp only [List.length_append, List.length_singleton]
        omega
    · rw [splitWhile, if_neg hcond]
      refine ⟨⟨ha, hb, hc, hd⟩, rfl, ?_⟩
      intro _ _
      rw [hadd] at hcond
      exact hcond

/-- The loop over an unlock schedule, when no sum wraps around: it keeps the invariant and
adds the amounts of the schedule to the total of the groups. -/
theorem splitUnlocks_spec (allocation : Allocation) (nodeWeight numSplits : Nat)
    (hw : nodeWeight < 2 ^ 64) (hn : 1 ≤ numSplits) (rest : List LockedAmount)
    (st : SplitState)
    (hinv : SplitInv nodeWeight numSplits
      (scheduleAmount st.currentAllocation.UnlockSchedule) st)
    (hq : groupsAmount st.allNodeAllocations + st.currentNodeAmount + scheduleAmount rest
      < 2 ^ 64) :
    SplitInv nodeWeight numSplits
        (scheduleAmount
          (splitUnlocks allocation nodeWeight numSplits st rest).currentAllocation.UnlockSchedule)
        (splitUnlocks allocation nodeWeight numSplits st rest)
      ∧ groupsAmount (splitUnlocks allocation nodeWeight numSplits st rest).allNodeAllocations
          + (splitUnlocks allocation nodeWeight numSplits st rest).currentNodeAmount
        = groupsAmount st.allNodeAllocations + st.currentNodeAmount + scheduleAmount rest := by
  induction rest generalizing st with
  | nil => exact ⟨by simpa [splitUnlocks] using hinv, by simp [splitUnlocks, scheduleAmount]⟩
  | cons u rest ih =>
    have hsum : scheduleAmount (u :: rest) = u.Amount + scheduleAmount rest := by
      simp [scheduleAmount]
    rw [hsum] at hq ⊢
    obtain ⟨i1, i2, i3⟩ := splitWhile_spec allocation nodeWeight numSplits hw numSplits st u
      hinv (by omega)
    have hexit := i3 hn (by omega)
    rw [splitUnlocks]
    dsimp only
    generalize splitWhile allocation nodeWeight numSplits numSplits st u = r at i1 i2 hexit ⊢
    obtain ⟨st1, u1⟩ := r
    simp only at i1 i2 hexit ⊢
    by_cases h0 : (u1.Amount == 0) = true
    · rw [if_pos h0]
      have hz : u1.Amount = 0 := by simpa using h0
      obtain ⟨j1, j2⟩ := ih st1 i1 (by omega)
      exact ⟨j1, by rw [j2]; omega⟩
    · rw [if_neg h0]
      obtain ⟨ha, hb, hc, hd⟩ := i1
      have hadd : add64 st1.currentNodeAmount u1.Amount = st1.currentNodeAmount + u1.Amount :=
        add64_eq (by omega)
      rw [hadd]
      have hinv2 : SplitInv nodeWeight numSplits
          (scheduleAmount (st1.currentAllocation.UnlockSchedule ++ [⟨u1.Amount, u1.Locktime⟩]))
          { st1 with
            currentAllocation :=
              { st1.currentAllocation with
                UnlockSchedule :=
                  st1.currentAllocation.UnlockSchedule ++ [⟨u1.Amount, u1.Locktime⟩] }
            currentNodeAmount := st1.currentNodeAmount + u1.Amount } := by
        refine ⟨?_, hb, hc, ?_⟩
        · rw [scheduleAmount_append]
          simp only [scheduleAmount, List.map_cons, List.map_nil, List.sum_cons, List.sum_nil]
          simp only [scheduleAmount] at ha
          omega
        · intro hlt
          simp only at hlt ⊢
          by_contra hgt
          exact hexit ⟨by omega, hlt⟩
      obtain ⟨j1, j2⟩ := ih _ hinv2 (by simp only; omega)
      exact ⟨j1, by rw [j2]; simp only; omega⟩

/-- One round of the loop over the allocations, when no sum wraps around. -/
theorem splitStep_spec (nodeWeight numSplits : Nat) (hw : nodeWeight < 2 ^ 64)
    (hn : 1 ≤ numSplits) (st : SplitState) (allocation : Allocation)
    (hinv : SplitInv nodeWeight numSplits 0 st)
    (hq : groupsAmount st.allNodeAllocations + st.currentNodeAmount
      + scheduleAmount allocation.UnlockSchedule < 2 ^ 64) :
    SplitInv nodeWeight numSplits 0 (splitStep nodeWeight numSplits st allocation)
      ∧ groupsAmount (splitStep nodeWeight numSplits st allocation).allNodeAllocations
          + (splitStep nodeWeight numSplits st allocation).currentNodeAmount
        = groupsAmount st.allNodeAllocations + st.currentNodeAmount
          + scheduleAmount allocation.UnlockSchedule := by
  have hinv0 : SplitInv nodeWeight numSplits
      (scheduleAmount
        ({ st with currentAllocation := freshAllocation allocation } : SplitState).currentAllocation.UnlockSchedule)
      { st with currentAllocation := freshAllocation allocation } := by
    simpa [SplitInv, freshAllocation, scheduleAmount] using hinv
  obtain ⟨i1, i2⟩ := splitUnlocks_spec allocation nodeWeight numSplits hw hn
    allocation.UnlockSchedule _ hinv0 hq
  rw [splitStep]
  generalize splitUnlocks allocation nodeWeight numSplits
    { st with currentAllocation := freshAllocation allocation } allocation.UnlockSchedule
    = st1 at i1 i2 ⊢
  simp only at i2
  obtain ⟨ha, hb, hc, hd⟩ := i1
  by_cases hlen : st1.currentAllocation.UnlockSchedule.length > 0
  · rw [if_pos hlen]
    refine ⟨⟨?_, hb, hc, hd⟩, i2⟩
    simp only [allocationsAmount_append]
    simp only [allocationsAmount, List.map_cons, List.map_nil, List.sum_cons, List.sum_nil]
    simp only [allocationsAmount] at ha
    omega
  · rw [if_neg hlen]
    have hnil : st1.currentAllocation.UnlockSchedule = [] := by
      cases hs : st1.currentAllocation.UnlockSchedule with
      | nil => rfl
      | cons x xs => simp [hs] at hlen
    refine ⟨⟨?_, hb, hc, hd⟩, i2⟩
    rw [hnil] at ha
    simpa [scheduleAmount] using ha

/-- The loop over the allocations, when no sum wraps around. -/
theorem splitFold_spec (nodeWeight numSplits : Nat) (hw : nodeWeight < 2 ^ 64)
    (hn : 1 ≤ numSplits) (allocations : List Allocation) (st : SplitState)
    (hinv : SplitInv nodeWeight numSplits 0 st)
    (hq : groupsAmount st.allNodeAllocations + st.currentNodeAmount
      + allocationsAmount allocations < 2 ^ 64) :
    SplitInv nodeWeight numSplits 0 (allocations.foldl (splitStep nodeWeight numSplits) st)
      ∧ groupsAmount (allocations.foldl (splitStep nodeWeight numSplits) st).allNodeAllocations
          + (allocations.foldl (splitStep nodeWeight numSplits) st).currentNodeAmount
        = groupsAmount st.allNodeAllocations + st.currentNodeAmount
          + allocationsAmount allocations := by
  induction allocations generalizing st with
  | nil => exact ⟨by simpa using hinv, by simp [allocationsAmount]⟩
  | cons al rest ih =>
    have hsum : allocationsAmount (al :: rest)
        = scheduleAmount al.UnlockSchedule + allocationsAmount rest := by
      simp [allocationsAmount]
    rw [hsum] at hq ⊢
    obtain ⟨i1, i2⟩ := splitStep_spec nodeWeight numSplits hw hn st al hinv (by omega)
    rw [List.foldl_cons]
    obtain ⟨j1, j2⟩ := ih _ i1 (by omega)
    exact ⟨j1, by rw [j2]; omega⟩

/-- The first loop computes the sum of the unlock amounts when that sum fits in `uint64`. -/
theorem totalAmount_eq (allocations : List Allocation)
    (ht : allocationsAmount allocations < 2 ^ 64) :
    totalAmount allocations = allocationsAmount allocations := by
  have inner : ∀ (schedule : List LockedAmount) (t : Nat),
      t + scheduleAmount schedule < 2 ^ 64 →
      schedule.foldl (fun total unlock => add64 total unlock.Amount) t
        = t + scheduleAmount schedule := by
    intro schedule
    induction schedule with
    | nil => intro t _; simp [scheduleAmount]
    | cons u rest ih =>
      intro t h
      have hsum : scheduleAmount (u :: rest) = u.Amount + scheduleAmount rest := by
        simp [scheduleAmount]
      rw [hsum] at h ⊢
      rw [List.foldl_cons, add64_eq (by omega), ih _ (by omega)]
      omega
  have outer : ∀ (l : List Allocation) (t : Nat), t + allocationsAmount l < 2 ^ 64 →
      l.foldl (fun total allocation =>
          allocation.UnlockSchedule.foldl (fun total unlock => add64 total unlock.Amount) total)
        t = t + allocationsAmount l := by
    intro l
    induction l with
    | nil => intro t _; simp [allocationsAmount]
    | cons al rest ih =>
      intro t h
      have hsum : allocationsAmount (al :: rest)
          = scheduleAmount al.UnlockSchedule + allocationsAmount rest := by
        simp [allocationsAmount]
      rw [hsum] at h ⊢
      rw [List.foldl_cons, inner _ _ (by omega), ih _ (by omega)]
      omega
  have := outer allocations 0 (by omega)
  simpa [totalAmount] using this

/-- What `splitAllocations` returns when `numSplits` is a positive `int` and the total
unlock amount fits in `uint64`: the finished groups and the last group of a final
state that satisfies the invariant for `nodeWeight = total / numSplits` and holds the
total amount. -/
theorem splitAllocations_spec (allocations : List Allocation) (numSplits : Nat)
    (hn : 1 ≤ numSplits) (hint : numSplits < 2 ^ 63)
    (ht : allocationsAmount allocations < 2 ^ 64) :
    ∃ st : SplitState,
      splitAllocations allocations numSplits
          = some (st.allNodeAllocations ++ [st.currentNodeAllocation])
        ∧ SplitInv (allocationsAmount allocations / numSplits) numSplits 0 st
        ∧ groupsAmount st.allNodeAllocations + st.currentNodeAmount
          = allocationsAmount allocations := by
  have hu : toUint64 numSplits = numSplits := by
    unfold toUint64
    exact Nat.mod_eq_of_lt (by omega)
  have hw : allocationsAmount allocations / numSplits < 2 ^ 64 :=
    lt_of_le_of_lt (Nat.div_le_self _ _) ht
  have hinit : SplitInv (allocationsAmount allocations / numSplits) numSplits 0 splitInit := by
    refine ⟨by simp [splitInit, allocationsAmount], by simp [splitInit], by simp [splitInit],
      fun _ => by simp [splitInit]⟩
  obtain ⟨i1, i2⟩ := splitFold_spec _ numSplits hw hn allocations splitInit hinit
    (by simpa [splitInit, groupsAmount] using ht)
  refine ⟨_, ?_, i1, ?_⟩
  · unfold splitAllocations
    rw [hu, if_neg (by omega), totalAmount_eq allocations ht]
  · rw [i2]
    simp [splitInit, groupsAmount]

/-- The fresh copy of an allocation is made of (no) pieces of it. -/
theorem pieceOf_fresh (al : Allocation) : PieceOf al (freshAllocation al) := by
  simp [PieceOf, freshAllocation]

/-- Appending a piece with the locktime of an entry of the input schedule. -/
theorem pieceOf_append (al a : Allocation) (amount locktime : Nat) (h : PieceOf al a)
    (hl : ∃ u ∈ al.UnlockSchedule, locktime = u.Locktime) :
    PieceOf al { a with UnlockSchedule := a.UnlockSchedule ++ [⟨amount, locktime⟩] } := by
  obtain ⟨h1, h2, h3, h4⟩ := h
  refine ⟨h1, h2, h3, ?_⟩
  intro p hp
  simp only [List.mem_append, List.mem_singleton] at hp
  rcases hp with hp | hp
  · exact h4 p hp
  · rw [hp]
    exact hl

/-- The innermost loop keeps every allocation made of pieces of an input allocation, and
keeps the locktime of the unlock it works on. -/
theorem splitWhile_prov (allocations : List Allocation) (al : Allocation)
    (hal : al ∈ allocations) (nodeWeight numSplits fuel : Nat) (st : SplitState)
    (unlock : LockedAmount) (hp : SplitProv allocations st)
    (hc : PieceOf al st.currentAllocation)
    (hl : ∃ u ∈ al.UnlockSchedule, unlock.Locktime = u.Locktime) :
    SplitProv allocations (splitWhile al nodeWeight numSplits fuel st unlock).1
      ∧ PieceOf al (splitWhile al nodeWeight numSplits fuel st unlock).1.currentAllocation
      ∧ (splitWhile al nodeWeight numSplits fuel st unlock).2.Locktime = unlock.Locktime := by
  induction fuel generalizing st unlock with
  | zero => exact ⟨hp, hc, rfl⟩
  | succ fuel ih =>
    by_cases hcond : add64 st.currentNodeAmount unlock.Amount > nodeWeight
        ∧ st.allNodeAllocations.length < numSplits - 1
    · rw [splitWhile, if_pos hcond]
      dsimp only
      apply ih
      · refine ⟨?_, by simp⟩
        intro g hg a ha
        simp only [List.mem_append, List.mem_singleton] at hg
        rcases hg with hg | hg
        · exact hp.1 g hg a ha
        · rw [hg] at ha
          simp only [List.mem_append, List.mem_singleton] at ha
          rcases ha with ha | ha
          · exact hp.2 a ha
          · rw [ha]
            exact ⟨al, hal, pieceOf_append al _ _ _ hc hl⟩
      · exact pieceOf_fresh al
      · exact hl
    · rw [splitWhile, if_neg hcond]
      exact ⟨hp, hc, rfl⟩

/-- The loop over (a part of) the unlock schedule of an input allocation keeps every
allocation made of pieces of an input allocation. -/
theorem splitUnlocks_prov (allocations : List Allocation) (al : Allocation)
    (hal : al ∈ allocations) (nodeWeight numSplits : Nat) (rest : List LockedAmount)
    (st : SplitState) (hrest : ∀ u ∈ rest, u ∈ al.UnlockSchedule)
    (hp : SplitProv allocations st) (hc : PieceOf al st.currentAllocation) :
    SplitProv allocations (splitUnlocks al nodeWeight numSplits st rest)
      ∧ PieceOf al (splitUnlocks al nodeWeight numSplits st rest).currentAllocation := by
  induction rest generalizing st with
  | nil => exact ⟨hp, hc⟩
  | cons u rest ih =>
    have hu : ∃ u0 ∈ al.UnlockSchedule, u.Locktime = u0.Locktime :=
      ⟨u, hrest u (List.mem_cons_self _ _), rfl⟩
    have hrest2 : ∀ x ∈ rest, x ∈ al.UnlockSchedule :=
      fun x hx => hrest x (List.mem_cons_of_mem _ hx)
    obtain ⟨i1, i2, i3⟩ := splitWhile_prov allocations al hal nodeWeight numSplits numSplits
      st u hp hc hu
    rw [splitUnlocks]
    dsimp only
    generalize splitWhile al nodeWeight numSplits numSplits st u = r at i1 i2 i3 ⊢
    obtain ⟨st1, u1⟩ := r
    simp only at i1 i2 i3 ⊢
    by_cases h0 : (u1.Amount == 0) = true
    · rw [if_pos h0]
      exact ih st1 hrest2 i1 i2
    · rw [if_neg h0]
      apply ih _ hrest2
      · exact i1
      · exact pieceOf_append al _ _ _ i2 ⟨u, hrest u (List.mem_cons_self _ _), i3⟩

/-- One round of the loop over the allocations keeps every allocation made of pieces of
an input allocation. -/
theorem splitStep_prov (allocations : List Allocation) (al : Allocation)
    (hal : al ∈ allocations) (nodeWeight numSplits : Nat) (st : SplitState)
    (hp : SplitProv allocations st) :
    SplitProv allocations (splitStep nodeWeight numSplits st al) := by
  obtain ⟨i1, i2⟩ := splitUnlocks_prov allocations al hal nodeWeight numSplits
    al.UnlockSchedule { st with currentAllocation := freshAllocation al }
    (fun u hu => hu) hp (pieceOf_fresh al)
  rw [splitStep]
  generalize splitUnlocks al nodeWeight numSplits
    { st with currentAllocation := freshAllocation al } al.UnlockSchedule = st1 at i1 i2 ⊢
  by_cases hlen : st1.currentAllocation.UnlockSchedule.length > 0
  · rw [if_pos hlen]
    refine ⟨i1.1, ?_⟩
    intro a ha
    simp only [List.mem_append, List.mem_singleton] at ha
    rcases ha with ha | ha
    · exact i1.2 a ha
    · rw [ha]
      exact ⟨al, hal, i2⟩
  · rw [if_neg hlen]
    exact i1

/-- The loop over the allocations keeps every allocation made of pieces of an input
allocation. -/
theorem splitFold_prov (allocations : List Allocation) (nodeWeight numSplits : Nat)
    (rest : List Allocation) (st : SplitState) (hrest : ∀ al ∈ rest, al ∈ allocations)
    (hp : SplitProv allocations st) :
    SplitProv allocations (rest.foldl (splitStep nodeWeight numSplits) st) := by
  induction rest generalizing st with
  | nil => exact hp
  | cons al rest ih =>
    rw [List.foldl_cons]
    exact ih _ (fun x hx => hrest x (List.mem_cons_of_mem _ hx))
      (splitStep_prov allocations al (hrest al (List.mem_cons_self _ _)) _ _ st hp)

/-- Every allocation `splitAllocations` returns is made of pieces of an input allocation. -/
theorem splitAllocations_prov (allocations : List Allocation) (numSplits : Nat)
    (groups : List (List Allocation))
    (h : splitAllocations allocations numSplits = some groups) :
    ∀ g ∈ groups, ∀ a ∈ g, CutFrom allocations a := by
  unfold splitAllocations at h
  by_cases h0 : toUint64 numSplits = 0
  · rw [if_pos h0] at h
    exact absurd h (by simp)
  · rw [if_neg h0] at h
    have hp := splitFold_prov allocations (totalAmount allocations / toUint64 numSplits)
      numSplits allocations splitInit (fun al hal => hal)
      ⟨by simp [splitInit], by simp [splitInit]⟩
    simp only [Option.some.injEq] at h
    intro g hg a ha
    rw [← h] at hg
    simp only [List.mem_append, List.mem_singleton] at hg
    rcases hg with hg | hg
    · exact hp.1 g hg a ha
    · rw [hg] at ha
      exact hp.2 a ha

/-- The amount of a list of groups that hold `w` each. -/
theorem groupsAmount_of_forall (groups : List (List Allocation)) (w : Nat)
    (h : ∀ g ∈ groups, allocationsAmount g = w) : groupsAmount groups = groups.length * w := by
  induction groups with
  | nil => simp [groupsAmount]
  | cons g rest ih =>
    have hr := ih (fun x hx => h x (List.mem_cons_of_mem _ hx))
    have hg := h g (List.mem_cons_self _ _)
    simp only [groupsAmount, List.map_cons, List.sum_cons, List.length_cons] at hr ⊢
    rw [hr, hg, Nat.succ_mul]
    omega

/-- When `numSplits` is a positive `int` and the total unlock amount is positive and fits
in `uint64`, `splitAllocations` returns exactly `numSplits` groups. -/
theorem splitAllocations_length_pos (allocations : List Allocation) (numSplits : Nat)
    (hn : 1 ≤ numSplits) (hint : numSplits < 2 ^ 63)
    (ht : allocationsAmount allocations < 2 ^ 64) (hpos : 0 < allocationsAmount allocations) :
    ∃ groups, splitAllocations allocations numSplits = some groups
      ∧ groups.length = numSplits := by
  obtain ⟨st, h1, ⟨ha, hb, hc, hd⟩, hq⟩ := splitAllocations_spec allocations numSplits hn hint ht
  refine ⟨_, h1, ?_⟩
  simp only [List.length_append, List.length_singleton]
  by_contra hne
  have hlt : st.allNodeAllocations.length < numSplits - 1 := by omega
  have hcur := hd hlt
  have hg := groupsAmount_of_forall _ _ hb
  have h2 : numSplits * (allocationsAmount allocations / numSplits)
      ≤ allocationsAmount allocations := Nat.mul_div_le _ _
  have h3 : (st.allNodeAllocations.length + 1) * (allocationsAmount allocations / numSplits)
      ≤ (numSplits - 1) * (allocationsAmount allocations / numSplits) :=
    Nat.mul_le_mul_right _ (by omega)
  have h4 : numSplits * (allocationsAmount allocations / numSplits)
      = (numSplits - 1) * (allocationsAmount allocations / numSplits)
        + allocationsAmount allocations / numSplits := by
    rw [← Nat.succ_mul]
    congr 1
    omega
  rw [Nat.succ_mul] at h3
  rcases Nat.eq_zero_or_pos (allocationsAmount allocations / numSplits) with hz | hz
  · rw [hz] at hcur hg
    simp only [Nat.mul_zero] at hg
    omega
  · omega

/-- C19 (the code at the failing inputs): for an empty allocation list, and for one
allocation with an empty unlock schedule, `splitAllocations` with `numSplits = 2`
returns one group, not two; the second is what `FromConfig` passes for
`emptyScheduleConfig`, which `validateConfig` accepts, and the lookup
`allNodeAllocations[1]` for its second staker is out of range. -/
theorem splitAllocations_one_group :
    splitAllocations [] 2 = some [[]]
      ∧ splitAllocations [⟨11, 22, 5, []⟩] 2 = some [[]]
      ∧ validateConfig testEnv 1337 emptyScheduleConfig = none
      ∧ skippedAllocations emptyScheduleConfig = [⟨11, 22, 5, []⟩]
      ∧ emptyScheduleConfig.InitialStakers.length = 2
      ∧ nodeAllocations emptyScheduleConfig 1 = none := by
  decide

/-- The unlock entries of two lists of allocations put together. -/
theorem allocationsPieces_append (l1 l2 : List Allocation) :
    allocationsPieces (l1 ++ l2) = allocationsPieces l1 ++ allocationsPieces l2 := by
  induction l1 with
  | nil => rfl
  | cons a rest ih => simp [allocationsPieces, ih]

/-- The unlock entries of two lists of groups put together. -/
theorem groupsPieces_append (l1 l2 : List (List Allocation)) :
    groupsPieces (l1 ++ l2) = groupsPieces l1 ++ groupsPieces l2 := by
  induction l1 with
  | nil => rfl
  | cons g rest ih => simp [groupsPieces, ih]

/-- Cutting two lists of entries, one after the other. -/
theorem cutInto_append (a x b y : List Piece) (h1 : CutInto a x) (h2 : CutInto b y) :
    CutInto (a ++ b) (x ++ y) := by
  induction h1 with
  | nil => simpa using h2
  | cons u run us out hu _ ih =>
    rw [List.cons_append, List.append_assoc]
    exact CutInto.cons u run (us ++ b) (out ++ y) hu ih

/-- The amounts of the pieces of a cut list sum to the amounts of the entries. -/
theorem cutInto_sum (a x : List Piece) (h : CutInto a x) :
    (x.map (fun p => p.Amount)).sum = (a.map (fun p => p.Amount)).sum := by
  induction h with
  | nil => rfl
  | cons u run us out hu _ ih =>
    simp only [List.map_append, List.sum_append, List.map_cons, List.sum_cons, ih, hu.2]

/-- In a cut list, every entry of positive amount has a piece with its addresses and its
locktime. -/
theorem cutInto_pos (a x : List Piece) (h : CutInto a x) (u : Piece) (hu : u ∈ a)
    (hpos : 0 < u.Amount) :
    ∃ p ∈ x, p.ETHAddr = u.ETHAddr ∧ p.DJTXAddr = u.DJTXAddr ∧ p.Locktime = u.Locktime := by
  induction h with
  | nil => simp at hu
  | cons v run us out hv _ ih =>
    simp only [List.mem_cons] at hu
    rcases hu with hu | hu
    · subst hu
      cases run with
      | nil =>
        have := hv.2
        simp at this
        omega
      | cons p rest =>
        exact ⟨p, by simp, hv.1 p (List.mem_cons_self _ _)⟩
    · obtain ⟨p, hp, ht⟩ := ih hu
      exact ⟨p, List.mem_append_right _ hp, ht⟩

/-- In a cut list, every piece has the addresses and the locktime of an entry. -/
theorem cutInto_piece (a x : List Piece) (h : CutInto a x) (p : Piece) (hp : p ∈ x) :
    ∃ u ∈ a, p.ETHAddr = u.ETHAddr ∧ p.DJTXAddr = u.DJTXAddr ∧ p.Locktime = u.Locktime
      ∧ p.Amount ≤ u.Amount := by
  induction h with
  | nil => simp at hp
  | cons v run us out hv _ ih =>
    simp only [List.mem_append] at hp
    rcases hp with hp | hp
    · refine ⟨v, List.mem_cons_self _ _, (hv.1 p hp).1, (hv.1 p hp).2.1, (hv.1 p hp).2.2, ?_⟩
      rw [← hv.2]
      exact List.single_le_sum (fun _ _ => Nat.zero_le _) _
        (List.mem_map_of_mem (fun q => q.Amount) hp)
    · obtain ⟨u, hu, ht⟩ := ih hp
      exact ⟨u, List.mem_cons_of_mem _ hu, ht⟩

/-- The innermost loop, when no sum wraps around: the pieces it adds to the state all have
the addresses of the allocation and the locktime of the unlock it works on, and their
amounts and what is left of the unlock sum to the amount of the unlock. -/
theorem splitWhile_cut (al : Allocation) (nodeWeight numSplits : Nat)
    (hw : nodeWeight < 2 ^ 64) (fuel : Nat) (st : SplitState) (unlock : LockedAmount)
    (hinv : SplitInv nodeWeight numSplits
      (scheduleAmount st.currentAllocation.UnlockSchedule) st)
    (hq : groupsAmount st.allNodeAllocations + st.currentNodeAmount + unlock.Amount
      < 2 ^ 64)
    (haddr : st.currentAllocation.ETHAddr = al.ETHAddr
      ∧ st.currentAllocation.DJTXAddr = al.DJTXAddr) :
    ∃ run : List Piece,
      statePieces (splitWhile al nodeWeight numSplits fuel st unlock).1 = statePieces st ++ run
        ∧ (∀ p ∈ run, p.ETHAddr = al.ETHAddr ∧ p.DJTXAddr = al.DJTXAddr
            ∧ p.Locktime = unlock.Locktime)
        ∧ (run.map (fun p => p.Amount)).sum
            + (splitWhile al nodeWeight numSplits fuel st unlock).2.Amount = unlock.Amount
        ∧ (splitWhile al nodeWeight numSplits fuel st unlock).2.Locktime = unlock.Locktime
        ∧ (splitWhile al nodeWeight numSplits fuel st unlock).1.currentAllocation.ETHAddr
            = al.ETHAddr
        ∧ (splitWhile al nodeWeight numSplits fuel st unlock).1.currentAllocation.DJTXAddr
            = al.DJTXAddr := by
  induction fuel generalizing st unlock with
  | zero => exact ⟨[], by simp [splitWhile], by simp, by simp [splitWhile], rfl, haddr.1, haddr.2⟩
  | succ fuel ih =>
    by_cases hcond : add64 st.currentNodeAmount unlock.Amount > nodeWeight
        ∧ st.allNodeAllocations.length < numSplits - 1
    · have hone := splitWhile_spec al nodeWeight numSplits hw 1 st unlock hinv hq
      have e1 : splitWhile al nodeWeight numSplits 1 st unlock
          = ((⟨st.allNodeAllocations ++ [st.currentNodeAllocation ++
                  [{ st.currentAllocation with
                      UnlockSchedule := st.currentAllocation.UnlockSchedule
                        ++ [⟨sub64 nodeWeight st.currentNodeAmount, unlock.Locktime⟩] }]],
                [], 0, freshAllocation al⟩ : SplitState),
              (⟨sub64 unlock.Amount (sub64 nodeWeight st.currentNodeAmount),
                unlock.Locktime⟩ : LockedAmount)) := by
        rw [splitWhile, if_pos hcond]
        rfl
      rw [e1] at hone
      obtain ⟨hinv2, hq2, _⟩ := hone
      simp only at hinv2 hq2
      obtain ⟨ha, hb, hc, hd⟩ := hinv
      have hgrp := hinv2.2.1 _ (List.mem_append_right _ (List.mem_singleton_self _))
      rw [allocationsAmount_append] at hgrp
      simp only [allocationsAmount, scheduleAmount, List.map_cons, List.map_nil,
        List.sum_cons, List.sum_nil, List.map_append, List.sum_append, Nat.add_zero] at hgrp
      simp only [allocationsAmount, scheduleAmount] at ha
      rw [groupsAmount_append] at hq2
      simp only [groupsAmount, List.map_cons, List.map_nil, List.sum_cons, List.sum_nil,
        Nat.add_zero] at hq2
      have hgrp2 := hinv2.2.1 _ (List.mem_append_right _ (List.mem_singleton_self _))
      rw [hgrp2] at hq2
      have hsum : sub64 nodeWeight st.currentNodeAmount
          + sub64 unlock.Amount (sub64 nodeWeight st.currentNodeAmount) = unlock.Amount := by
        simp only [groupsAmount] at hq
        omega
      obtain ⟨run, r1, r2, r3, r4, r5, r6⟩ := ih _ ⟨sub64 unlock.Amount
        (sub64 nodeWeight st.currentNodeAmount), unlock.Locktime⟩ hinv2
        (by
          rw [groupsAmount_append]
          simp only [groupsAmount, List.map_cons, List.map_nil, List.sum_cons, List.sum_nil,
            Nat.add_zero]
          rw [hgrp2]
          simp only [groupsAmount] at hq
          omega)
        ⟨rfl, rfl⟩
      rw [splitWhile, if_pos hcond]
      dsimp only
      refine ⟨⟨st.currentAllocation.ETHAddr, st.currentAllocation.DJTXAddr, unlock.Locktime,
        sub64 nodeWeight st.currentNodeAmount⟩ :: run, ?_, ?_, ?_, r4, r5, r6⟩
      · rw [r1]
        simp [statePieces, finishedPieces, groupsPieces_append, groupsPieces,
          allocationsPieces_append, allocationsPieces, allocationPieces, freshAllocation]
      · intro p hp
        simp only [List.mem_cons] at hp
        rcases hp with hp | hp
        · rw [hp]
          exact ⟨haddr.1, haddr.2, rfl⟩
        · exact r2 p hp
      · simp only [List.map_cons, List.sum_cons]
        simp only at r3
        omega
    · rw [splitWhile, if_neg hcond]
      exact ⟨[], by simp, by simp, by simp, rfl, haddr.1, haddr.2⟩

/-- The loop over an unlock schedule handles the first unlock, then the others. -/
theorem splitUnlocks_cons (al : Allocation) (nodeWeight numSplits : Nat) (st : SplitState)
    (u : LockedAmount) (rest : List LockedAmount) :
    splitUnlocks al nodeWeight numSplits st (u :: rest)
      = splitUnlocks al nodeWeight numSplits (splitUnlocks al nodeWeight numSplits st [u])
          rest := by
  simp only [splitUnlocks]
  by_cases h0 : ((splitWhile al nodeWeight numSplits numSplits st u).2.Amount == 0) = true
  · rw [if_pos h0, if_pos h0]
  · rw [if_neg h0, if_neg h0]

/-- One round of the loop over an unlock schedule, when no sum wraps around: the pieces
it adds to the state are the unlock cut into pieces. -/
theorem splitUnlocks_one_cut (al : Allocation) (nodeWeight numSplits : Nat)
    (hw : nodeWeight < 2 ^ 64) (st : SplitState) (u : LockedAmount)
    (hinv : SplitInv nodeWeight numSplits
      (scheduleAmount st.currentAllocation.UnlockSchedule) st)
    (hq : groupsAmount st.allNodeAllocations + st.currentNodeAmount + u.Amount < 2 ^ 64)
    (haddr : st.currentAllocation.ETHAddr = al.ETHAddr
      ∧ st.currentAllocation.DJTXAddr = al.DJTXAddr) :
    ∃ run : List Piece,
      statePieces (splitUnlocks al nodeWeight numSplits st [u]) = statePieces st ++ run
        ∧ CutOf ⟨al.ETHAddr, al.DJTXAddr, u.Locktime, u.Amount⟩ run
        ∧ (splitUnlocks al nodeWeight numSplits st [u]).currentAllocation.ETHAddr = al.ETHAddr
        ∧ (splitUnlocks al nodeWeight numSplits st [u]).currentAllocation.DJTXAddr
            = al.DJTXAddr := by
  obtain ⟨run, r1, r2, r3, r4, r5, r6⟩ := splitWhile_cut al nodeWeight numSplits hw numSplits
    st u hinv hq haddr
  simp only [splitUnlocks]
  generalize splitWhile al nodeWeight numSplits numSplits st u = r at r1 r3 r4 r5 r6 ⊢
  obtain ⟨st1, u1⟩ := r
  simp only at r1 r3 r4 r5 r6 ⊢
  by_cases h0 : (u1.Amount == 0) = true
  · rw [if_pos h0]
    have hz : u1.Amount = 0 := by simpa using h0
    refine ⟨run, r1, ⟨r2, ?_⟩, r5, r6⟩
    simp only
    omega
  · rw [if_neg h0]
    refine ⟨run ++ [⟨st1.currentAllocation.ETHAddr, st1.currentAllocation.DJTXAddr,
      u1.Locktime, u1.Amount⟩], ?_, ⟨?_, ?_⟩, r5, r6⟩
    · simp only [statePieces, finishedPieces, allocationPieces, List.map_append,
        List.map_cons, List.map_nil] at r1 ⊢
      rw [← List.append_assoc, r1]
      simp
    · intro p hp
      simp only [List.mem_append, List.mem_singleton] at hp
      rcases hp with hp | hp
      · exact r2 p hp
      · rw [hp]
        exact ⟨r5, r6, r4⟩
    · simp only [List.map_append, List.sum_append, List.map_cons, List.map_nil,
        List.sum_cons, List.sum_nil]
      omega

/-- The loop over (the rest of) the unlock schedule of an allocation, when no sum wraps
around: the pieces it adds to the state are these unlocks, each with the addresses of
the allocation, cut into pieces, in order. -/
theorem splitUnlocks_cut (al : Allocation) (nodeWeight numSplits : Nat)
    (hw : nodeWeight < 2 ^ 64) (hn : 1 ≤ numSplits) (rest : List LockedAmount)
    (st : SplitState)
    (hinv : SplitInv nodeWeight numSplits
      (scheduleAmount st.currentAllocation.UnlockSchedule) st)
    (hq : groupsAmount st.allNodeAllocations + st.currentNodeAmount + scheduleAmount rest
      < 2 ^ 64)
    (haddr : st.currentAllocation.ETHAddr = al.ETHAddr
      ∧ st.currentAllocation.DJTXAddr = al.DJTXAddr) :
    ∃ out : List Piece,
      statePieces (splitUnlocks al nodeWeight numSplits st rest) = statePieces st ++ out
        ∧ CutInto
            (rest.map (fun unlock => ⟨al.ETHAddr, al.DJTXAddr, unlock.Locktime, unlock.Amount⟩))
            out := by
  induction rest generalizing st with
  | nil => exact ⟨[], by simp [splitUnlocks], CutInto.nil⟩
  | cons u rest ih =>
    have hsum : scheduleAmount (u :: rest) = u.Amount + scheduleAmount rest := by
      simp [scheduleAmount]
    rw [hsum] at hq
    obtain ⟨run, c1, c2, c3, c4⟩ := splitUnlocks_one_cut al nodeWeight numSplits hw st u hinv
      (by omega) haddr
    obtain ⟨i1, i2⟩ := splitUnlocks_spec al nodeWeight numSplits hw hn [u] st hinv
      (by simp only [scheduleAmount, List.map_cons, List.map_nil, List.sum_cons, List.sum_nil]
          omega)
    have hone : scheduleAmount [u] = u.Amount := by simp [scheduleAmount]
    rw [hone] at i2
    obtain ⟨out, o1, o2⟩ := ih (splitUnlocks al nodeWeight numSplits st [u]) i1
      (by rw [i2]; omega) ⟨c3, c4⟩
    refine ⟨run ++ out, ?_, ?_⟩
    · rw [splitUnlocks_cons, o1, c1, List.append_assoc]
    · rw [List.map_cons]
      exact CutInto.cons _ run _ out c2 o2

/-- One round of the loop over the allocations, when no sum wraps around: the pieces it
adds to the groups are the unlocks of the allocation cut into pieces, in order. -/
theorem splitStep_cut (nodeWeight numSplits : Nat) (hw : nodeWeight < 2 ^ 64)
    (hn : 1 ≤ numSplits) (st : SplitState) (al : Allocation)
    (hinv : SplitInv nodeWeight numSplits 0 st)
    (hq : groupsAmount st.allNodeAllocations + st.currentNodeAmount
      + scheduleAmount al.UnlockSchedule < 2 ^ 64) :
    ∃ out : List Piece,
      finishedPieces (splitStep nodeWeight numSplits st al) = finishedPieces st ++ out
        ∧ CutInto (allocationPieces al) out := by
  have hinv0 : SplitInv nodeWeight numSplits
      (scheduleAmount
        ({ st with currentAllocation := freshAllocation al } : SplitState).currentAllocation.UnlockSchedule)
      { st with currentAllocation := freshAllocation al } := by
    simpa [SplitInv, freshAllocation, scheduleAmount] using hinv
  obtain ⟨out, o1, o2⟩ := splitUnlocks_cut al nodeWeight numSplits hw hn al.UnlockSchedule
    { st with currentAllocation := freshAllocation al } hinv0 hq ⟨rfl, rfl⟩
  have hstart : statePieces ({ st with currentAllocation := freshAllocation al } : SplitState)
      = finishedPieces st := by
    simp [statePieces, finishedPieces, allocationPieces, freshAllocation]
  rw [hstart] at o1
  refine ⟨out, ?_, o2⟩
  rw [← o1, splitStep]
  generalize splitUnlocks al nodeWeight numSplits
    { st with currentAllocation := freshAllocation al } al.UnlockSchedule = st1
  by_cases hlen : st1.currentAllocation.UnlockSchedule.length > 0
  · rw [if_pos hlen]
    simp [statePieces, finishedPieces, allocationsPieces_append, allocationsPieces]
  · rw [if_neg hlen]
    have hnil : st1.currentAllocation.UnlockSchedule = [] := by
      cases hs : st1.currentAllocation.UnlockSchedule with
      | nil => rfl
      | cons x xs => simp [hs] at hlen
    simp [statePieces, allocationPieces, hnil]

/-- The loop over the allocations, when no sum wraps around: the pieces it adds to the
groups are the unlocks of the allocations cut into pieces, in order. -/
theorem splitFold_cut (nodeWeight numSplits : Nat) (hw : nodeWeight < 2 ^ 64)
    (hn : 1 ≤ numSplits) (allocations : List Allocation) (st : SplitState)
    (hinv : SplitInv nodeWeight numSplits 0 st)
    (hq : groupsAmount st.allNodeAllocations + st.currentNodeAmount
      + allocationsAmount allocations < 2 ^ 64) :
    ∃ out : List Piece,
      finishedPieces (allocations.foldl (splitStep nodeWeight numSplits) st)
          = finishedPieces st ++ out
        ∧ CutInto (allocationsPieces allocations) out := by
  induction allocations generalizing st with
  | nil => exact ⟨[], by simp, CutInto.nil⟩
  | cons al rest ih =>
    have hsum : allocationsAmount (al :: rest)
        = scheduleAmount al.UnlockSchedule + allocationsAmount rest := by
      simp [allocationsAmount]
    rw [hsum] at hq
    obtain ⟨i1, i2⟩ := splitStep_spec nodeWeight numSplits hw hn st al hinv (by omega)
    obtain ⟨out1, a1, a2⟩ := splitStep_cut nodeWeight numSplits hw hn st al hinv (by omega)
    obtain ⟨out2, b1, b2⟩ := ih _ i1 (by rw [i2]; omega)
    refine ⟨out1 ++ out2, ?_, ?_⟩
    · rw [List.foldl_cons, b1, a1, List.append_assoc]
    · exact cutInto_append _ _ _ _ a2 b2

/-- What `splitAllocations` returns when `numSplits` is a positive `int` and the total
unlock amount fits in `uint64`: groups whose unlock entries, read in order, are the
unlock entries of the input, read in order, each cut into pieces. -/
theorem splitAllocations_cut (allocations : List Allocation) (numSplits : Nat)
    (hn : 1 ≤ numSplits) (hint : numSplits < 2 ^ 63)
    (ht : allocationsAmount allocations < 2 ^ 64) (groups : List (List Allocation))
    (h : splitAllocations allocations numSplits = some groups) :
    CutInto (allocationsPieces allocations) (groupsPieces groups) := by
  have hu : toUint64 numSplits = numSplits := by
    unfold toUint64
    exact Nat.mod_eq_of_lt (by omega)
  have hw : allocationsAmount allocations / numSplits < 2 ^ 64 :=
    lt_of_le_of_lt (Nat.div_le_self _ _) ht
  have hinit : SplitInv (allocationsAmount allocations / numSplits) numSplits 0 splitInit := by
    refine ⟨by simp [splitInit, allocationsAmount], by simp [splitInit], by simp [splitInit],
      fun _ => by simp [splitInit]⟩
  obtain ⟨out, o1, o2⟩ := splitFold_cut _ numSplits hw hn allocations splitInit hinit
    (by simpa [splitInit, groupsAmount] using ht)
  unfold splitAllocations at h
  rw [hu, if_neg (by omega), totalAmount_eq allocations ht] at h
  simp only [Option.some.injEq] at h
  rw [← h, groupsPieces_append]
  have hfin : finishedPieces splitInit = [] := by
    simp [finishedPieces, splitInit, groupsPieces, allocationsPieces]
  rw [hfin, List.nil_append] at o1
  simp only [groupsPieces, List.append_nil]
  rw [← o1] at o2
  exact o2

/-- C20: when `numSplits` is a positive `int` and the total unlock amount fits in `uint64`,
`splitAllocations` returns groups whose unlock amounts sum to the sum of the unlock
amounts of the input; the unlock entries of the returned groups, read in order, are
the unlock entries of the input, read in order, each cut into pieces that carry the
`ETHAddr` and `DJTXAddr` of its allocation and its own locktime and whose amounts sum
to its amount; and every returned allocation has `InitialAmount` 0 and the `ETHAddr`
and `DJTXAddr` of an input allocation whose unlock schedule holds the locktime of each
of its entries. -/
theorem splitAllocations_conserves (allocations : List Allocation) (numSplits : Nat)
    (hn : 1 ≤ numSplits) (hint : numSplits < 2 ^ 63)
    (ht : allocationsAmount allocations < 2 ^ 64) :
    ∃ groups, splitAllocations allocations numSplits = some groups
      ∧ groupsAmount groups = allocationsAmount allocations
      ∧ CutInto (allocationsPieces allocations) (groupsPieces groups)
      ∧ ∀ g ∈ groups, ∀ a ∈ g, a.InitialAmount = 0
          ∧ ∃ al ∈ allocations, a.ETHAddr = al.ETHAddr ∧ a.DJTXAddr = al.DJTXAddr
            ∧ ∀ p ∈ a.UnlockSchedule, ∃ u ∈ al.UnlockSchedule, p.Locktime = u.Locktime := by
  obtain ⟨st, h1, ⟨ha, _, _, _⟩, hq⟩ := splitAllocations_spec allocations numSplits hn hint ht
  refine ⟨_, h1, ?_, splitAllocations_cut allocations numSplits hn hint ht _ h1, ?_⟩
  · rw [groupsAmount_append, ← hq, ha]
    simp [groupsAmount]
  · intro g hg a hag
    obtain ⟨al, hal, p1, p2, p3, p4⟩ := splitAllocations_prov allocations numSplits _ h1 g hg a hag
    exact ⟨p1, al, hal, p2, p3, p4⟩

/-- C20, on two allocations with unlock amounts 100, 50 and 30 split three ways: three
groups of 60 each, 180 in all; the unlock of 100 is cut into 60 and 40, the unlock of
50 into 20 and 30, and the unlock of 30 is kept whole, each piece with the addresses
and the locktime of its unlock; three pieces of 60 that all carry the addresses 1 and 2
and the locktime 0 are no such cut, although they hold the same 180. -/
theorem splitAllocations_conserves_witness :
    splitAllocations [⟨1, 2, 5, [⟨100, 0⟩, ⟨50, 7⟩]⟩, ⟨3, 4, 5, [⟨30, 1⟩]⟩] 3
        = some [[⟨1, 2, 0, [⟨60, 0⟩]⟩], [⟨1, 2, 0, [⟨40, 0⟩, ⟨20, 7⟩]⟩],
            [⟨1, 2, 0, [⟨30, 7⟩]⟩, ⟨3, 4, 0, [⟨30, 1⟩]⟩]]
      ∧ CutInto [⟨1, 2, 0, 100⟩, ⟨1, 2, 7, 50⟩, ⟨3, 4, 1, 30⟩]
          [⟨1, 2, 0, 60⟩, ⟨1, 2, 0, 40⟩, ⟨1, 2, 7, 20⟩, ⟨1, 2, 7, 30⟩, ⟨3, 4, 1, 30⟩]
      ∧ ¬ CutInto [⟨1, 2, 0, 100⟩, ⟨1, 2, 7, 50⟩, ⟨3, 4, 1, 30⟩]
          [⟨1, 2, 0, 60⟩, ⟨1, 2, 0, 60⟩, ⟨1, 2, 0, 60⟩]
      ∧ ∃ groups,
          splitAllocations [⟨1, 2, 5, [⟨100, 0⟩, ⟨50, 7⟩]⟩, ⟨3, 4, 5, [⟨30, 1⟩]⟩] 3 = some groups
            ∧ groupsAmount groups = 180 := by
  have hev : splitAllocations [⟨1, 2, 5, [⟨100, 0⟩, ⟨50, 7⟩]⟩, ⟨3, 4, 5, [⟨30, 1⟩]⟩] 3
      = some [[⟨1, 2, 0, [⟨60, 0⟩]⟩], [⟨1, 2, 0, [⟨40, 0⟩, ⟨20, 7⟩]⟩],
          [⟨1, 2, 0, [⟨30, 7⟩]⟩, ⟨3, 4, 0, [⟨30, 1⟩]⟩]] := by decide
  obtain ⟨groups, h1, h2, h3, _⟩ := splitAllocations_conserves
    [⟨1, 2, 5, [⟨100, 0⟩, ⟨50, 7⟩]⟩, ⟨3, 4, 5, [⟨30, 1⟩]⟩] 3 (by decide) (by decide) (by decide)
  refine ⟨hev, ?_, ?_, groups, h1, by rw [h2]; decide⟩
  · rw [hev] at h1
    simp only [Option.some.injEq] at h1
    rw [← h1] at h3
    exact h3
  · intro hbad
    obtain ⟨p, hp, ht, _⟩ := cutInto_pos _ _ hbad ⟨3, 4, 1, 30⟩ (by simp) (by decide)
    simp only [List.mem_cons, List.mem_singleton, List.not_mem_nil, or_false, or_self] at hp
    rw [hp] at ht
    exact absurd ht (by decide)

/-- C21: when `numSplits` is a positive `int` and the total unlock amount `T` fits in
`uint64`, the groups `splitAllocations` returns are some groups followed by a last one;
each group before the last holds exactly `T / numSplits`, and the last holds the rest,
which is `T - (numSplits - 1) * (T / numSplits)`, that is `T / numSplits` plus the
remainder of the division. -/
theorem splitAllocations_even (allocations : List Allocation) (numSplits : Nat)
    (hn : 1 ≤ numSplits) (hint : numSplits < 2 ^ 63)
    (ht : allocationsAmount allocations < 2 ^ 64) :
    ∃ init last, splitAllocations allocations numSplits = some (init ++ [last])
      ∧ (∀ g ∈ init, allocationsAmount g = allocationsAmount allocations / numSplits)
      ∧ allocationsAmount last
        = allocationsAmount allocations
          - init.length * (allocationsAmount allocations / numSplits)
      ∧ allocationsAmount last
        = allocationsAmount allocations
          - (numSplits - 1) * (allocationsAmount allocations / numSplits)
      ∧ allocationsAmount last
        = allocationsAmount allocations / numSplits + allocationsAmount allocations % numSplits := by
  obtain ⟨st, h1, ⟨ha, hb, hc, hd⟩, hq⟩ := splitAllocations_spec allocations numSplits hn hint ht
  have hg := groupsAmount_of_forall _ _ hb
  have hlast : allocationsAmount st.currentNodeAllocation
      = allocationsAmount allocations
        - st.allNodeAllocations.length * (allocationsAmount allocations / numSplits) := by
    omega
  have hdm : numSplits * (allocationsAmount allocations / numSplits)
      + allocationsAmount allocations % numSplits = allocationsAmount allocations :=
    Nat.div_add_mod _ _
  have hsplit : numSplits * (allocationsAmount allocations / numSplits)
      = (numSplits - 1) * (allocationsAmount allocations / numSplits)
        + allocationsAmount allocations / numSplits := by
    rw [← Nat.succ_mul]
    congr 1
    omega
  refine ⟨st.allNodeAllocations, st.currentNodeAllocation, h1, hb, hlast, ?_, ?_⟩
  · rcases Nat.eq_zero_or_pos (allocationsAmount allocations) with hz | hpos
    · rw [hlast, hz]
      simp
    · obtain ⟨groups, h2, hlen⟩ := splitAllocations_length_pos allocations numSplits hn hint
        ht hpos
      rw [h1] at h2
      simp only [Option.some.injEq] at h2
      rw [← h2] at hlen
      simp only [List.length_append, List.length_singleton] at hlen
      have hl : st.allNodeAllocations.length = numSplits - 1 := by omega
      rw [hlast, hl]
  · rcases Nat.eq_zero_or_pos (allocationsAmount allocations) with hz | hpos
    · rw [hlast, hz]
      simp
    · obtain ⟨groups, h2, hlen⟩ := splitAllocations_length_pos allocations numSplits hn hint
        ht hpos
      rw [h1] at h2
      simp only [Option.some.injEq] at h2
      rw [← h2] at hlen
      simp only [List.length_append, List.length_singleton] at hlen
      have hl : st.allNodeAllocations.length = numSplits - 1 := by omega
      rw [hlast, hl]
      have key : ∀ A B w r T : Nat, A + r = T → A = B + w → T - B = w + r := by
        intro A B w r T e1 e2
        omega
      exact key _ _ _ _ _ hdm hsplit

/-- C21, on two allocations with unlock amounts 100, 50 and 31 split three ways: two
groups of 60 and a last group of 61. -/
theorem splitAllocations_even_witness :
    (splitAllocations [⟨1, 2, 5, [⟨100, 0⟩, ⟨50, 7⟩]⟩, ⟨3, 4, 5, [⟨31, 1⟩]⟩] 3).map
        (fun groups => groups.map allocationsAmount) = some [60, 60, 61]
      ∧ ∃ init last,
          splitAllocations [⟨1, 2, 5, [⟨100, 0⟩, ⟨50, 7⟩]⟩, ⟨3, 4, 5, [⟨31, 1⟩]⟩] 3
              = some (init ++ [last])
            ∧ (∀ g ∈ init, allocationsAmount g = 60) ∧ allocationsAmount last = 61 := by
  refine ⟨by decide, ?_⟩
  obtain ⟨init, last, h1, h2, _, _, h5⟩ := splitAllocations_even
    [⟨1, 2, 5, [⟨100, 0⟩, ⟨50, 7⟩]⟩, ⟨3, 4, 5, [⟨31, 1⟩]⟩] 3 (by decide) (by decide) (by decide)
  exact ⟨init, last, h1, h2, h5⟩

/-- What the stake-offset check of `validateConfig` does guarantee: when it returns nil,
the product of the offset and `len(InitialStakers) - 1`, reduced modulo `2 ^ 64` as the
`uint64` product is, is at most `InitialStakeDuration`; so the product itself is, when
it is below `2 ^ 64`. -/
theorem validateConfig_offset_mod (env : Env) (networkID : Nat) (config : Config)
    (h : validateConfig env networkID config = none) :
    (config.InitialStakeDurationOffset * toUint64 (config.InitialStakers.length - 1)) % 2 ^ 64
        ≤ config.InitialStakeDuration
      ∧ (config.InitialStakeDurationOffset * (config.InitialStakers.length - 1) < 2 ^ 64 →
          config.InitialStakers.length - 1 < 2 ^ 64 →
          config.InitialStakeDurationOffset * (config.InitialStakers.length - 1)
            ≤ config.InitialStakeDuration) := by
  have hmod : (config.InitialStakeDurationOffset
      * toUint64 (config.InitialStakers.length - 1)) % 2 ^ 64 ≤ config.InitialStakeDuration := by
    unfold validateConfig at h
    by_cases h1 : (networkID != config.NetworkID) = true
    · rw [if_pos h1] at h
      exact absurd h (by simp)
    rw [if_neg h1] at h
    cases hs : env.InitialSupply config with
    | error e =>
      rw [hs] at h
      exact absurd h (by simp)
    | ok supply =>
      rw [hs] at h
      dsimp only at h
      by_cases h2 : (supply == 0) = true
      · rw [if_pos h2] at h
        exact absurd h (by simp)
      rw [if_neg h2] at h
      by_cases h3 : env.Since (toInt64 config.StartTime) < 0
      · rw [if_pos h3] at h
        exact absurd h (by simp)
      rw [if_neg h3] at h
      by_cases h4 : (config.InitialStakeDuration == 0) = true
      · rw [if_pos h4] at h
        exact absurd h (by simp)
      rw [if_neg h4] at h
      by_cases h5 : (config.InitialStakers.length == 0) = true
      · rw [if_pos h5] at h
        exact absurd h (by simp)
      rw [if_neg h5] at h
      by_cases h6 : (config.InitialStakeDurationOffset
          * toUint64 (config.InitialStakers.length - 1)) % 2 ^ 64 > config.InitialStakeDuration
      · rw [if_pos h6] at h
        exact absurd h (by simp)
      · exact Nat.le_of_not_lt h6
  refine ⟨hmod, ?_⟩
  intro hlt hlen
  have hu : toUint64 (config.InitialStakers.length - 1) = config.InitialStakers.length - 1 := by
    unfold toUint64
    exact Nat.mod_eq_of_lt hlen
  rw [hu, Nat.mod_eq_of_lt hlt] at hmod
  exact hmod

/-- C22 (the code at the failing input): `validateConfig` accepts `overflowConfig`, whose
offset `2 ^ 63` times `len(InitialStakers) - 1 = 2` is `2 ^ 64` over the integers, far
above `InitialStakeDuration = 3600`; the `uint64` product the check compares is 0.
The end time `StartTime + InitialStakeDuration - 2 * InitialStakeDurationOffset` of the
last staker is then before `StartTime`. -/
theorem validateConfig_offset_wraps :
    validateConfig testEnv 1337 overflowConfig = none
      ∧ overflowConfig.InitialStakeDurationOffset * (overflowConfig.InitialStakers.length - 1)
        = 2 ^ 64
      ∧ overflowConfig.InitialStakeDuration = 3600
      ∧ ¬ (overflowConfig.InitialStakeDurationOffset
            * (overflowConfig.InitialStakers.length - 1)
          ≤ overflowConfig.InitialStakeDuration)
      ∧ (overflowConfig.InitialStakeDurationOffset
          * toUint64 (overflowConfig.InitialStakers.length - 1)) % 2 ^ 64 = 0
      ∧ (overflowConfig.StartTime : Int) + overflowConfig.InitialStakeDuration
          - 2 * overflowConfig.InitialStakeDurationOffset
        < overflowConfig.StartTime := by
  decide

/-! ### `innerSortXAllocation` -/

/-- The number of bytes `bigEndian` gives. -/
theorem bigEndian_length (n a : Nat) : (bigEndian n a).length = n := by
  induction n generalizing a with
  | zero => rfl
  | succ n ih => simp [bigEndian, ih]

/-- Comparing two byte strings of the same length that are each followed by one more
byte: the strings decide, and the last bytes do when the strings are equal. -/
theorem bytesCompare_append (l1 l2 : List Nat) (x y : Nat) (h : l1.length = l2.length) :
    bytesCompare (l1 ++ [x]) (l2 ++ [y])
      = if bytesCompare l1 l2 = 0 then (if x < y then -1 else if y < x then 1 else 0)
        else bytesCompare l1 l2 := by
  induction l1 generalizing l2 with
  | nil =>
    cases l2 with
    | nil => simp [bytesCompare]
    | cons b l2 => simp at h
  | cons a l1 ih =>
    cases l2 with
    | nil => simp at h
    | cons b l2 =>
      have hl : l1.length = l2.length := by simpa using h
      simp only [List.cons_append, bytesCompare]
      by_cases h1 : a < b
      · simp [h1]
      · by_cases h2 : b < a
        · simp [h1, h2]
        · simp only [h1, h2, if_false]
          exact ih l2 hl

/-- On numbers below `256 ^ n`, comparing the `n` bytes is comparing the numbers. -/
theorem bytesCompare_bigEndian (n a b : Nat) (ha : a < 256 ^ n) (hb : b < 256 ^ n) :
    bytesCompare (bigEndian n a) (bigEndian n b)
      = if a < b then -1 else if b < a then 1 else 0 := by
  induction n generalizing a b with
  | zero =>
    have h1 : a = 0 := by simpa using ha
    have h2 : b = 0 := by simpa using hb
    simp [bigEndian, bytesCompare, h1, h2]
  | succ n ih =>
    have ha2 : a / 256 < 256 ^ n := Nat.div_lt_of_lt_mul (by rw [← pow_succ']; exact ha)
    have hb2 : b / 256 < 256 ^ n := Nat.div_lt_of_lt_mul (by rw [← pow_succ']; exact hb)
    rw [bigEndian, bigEndian, bytesCompare_append _ _ _ _
      (by rw [bigEndian_length, bigEndian_length]), ih _ _ ha2 hb2]
    by_cases h1 : a / 256 < b / 256
    · have : a < b := by omega
      simp [h1, this]
    · by_cases h2 : b / 256 < a / 256
      · have h3 : b < a := by omega
        have h4 : ¬ a < b := by omega
        simp [h1, h2, h3, h4]
      · simp only [h1, h2, if_false, if_true]
        by_cases h5 : a % 256 < b % 256
        · have : a < b := by omega
          simp [h5, this]
        · by_cases h6 : b % 256 < a % 256
          · have h3 : b < a := by omega
            have h4 : ¬ a < b := by omega
            simp [h5, h6, h3, h4]
          · have h3 : ¬ b < a := by omega
            have h4 : ¬ a < b := by omega
            simp [h5, h6, h3, h4]

/-- For addresses of 20 bytes, `Less` compares the pairs of `InitialAmount` and address
(the number `x`, `y` that the address is) in lexicographic order. -/
theorem lessAllocation_iff (a b : Allocation) (x y : Nat) (hx : a.DJTXAddr = x)
    (hy : b.DJTXAddr = y) (ha : x < 2 ^ 160) (hb : y < 2 ^ 160) :
    lessAllocation a b = true ↔
      a.InitialAmount < b.InitialAmount ∨ (a.InitialAmount = b.InitialAmount ∧ x < y) := by
  have h256 : (256 : Nat) ^ 20 = 2 ^ 160 := by norm_num
  have hc := bytesCompare_bigEndian 20 x y (by rw [h256]; exact ha) (by rw [h256]; exact hb)
  unfold lessAllocation ShortID.Bytes
  rw [hx, hy, hc]
  by_cases h1 : x < y
  · simp [h1]
  · by_cases h2 : y < x
    · simp [h1, h2]
    · simp [h1, h2]

/-- C23: on a slice of allocations whose addresses are 20 bytes, `Less` is a strict order
by `InitialAmount`, then by the bytes of `DJTXAddr`: `Less(i, i)` is false; `Less(i, j)`
and `Less(j, k)` give `Less(i, k)`; for two allocations that differ in `InitialAmount`
or in `DJTXAddr` exactly one of `Less(i, j)` and `Less(j, i)` holds; for two
allocations equal in both neither holds. -/
theorem less_strict_order (xa : List Allocation) (hw : ∀ a ∈ xa, a.DJTXAddr < 2 ^ 160)
    (i j k : Nat) (hi : i < xa.length) (hj : j < xa.length) (hk : k < xa.length) :
    innerSortXAllocation.Less xa i i = some false
      ∧ (innerSortXAllocation.Less xa i j = some true →
          innerSortXAllocation.Less xa j k = some true →
          innerSortXAllocation.Less xa i k = some true)
      ∧ ((xa[i].InitialAmount ≠ xa[j].InitialAmount ∨ xa[i].DJTXAddr ≠ xa[j].DJTXAddr) →
          (innerSortXAllocation.Less xa i j = some true
              ∧ innerSortXAllocation.Less xa j i = some false)
            ∨ (innerSortXAllocation.Less xa i j = some false
              ∧ innerSortXAllocation.Less xa j i = some true))
      ∧ (xa[i].InitialAmount = xa[j].InitialAmount → xa[i].DJTXAddr = xa[j].DJTXAddr →
          innerSortXAllocation.Less xa i j = some false
            ∧ innerSortXAllocation.Less xa j i = some false) := by
  have hless : ∀ (p q : Nat) (hp : p < xa.length) (hq : q < xa.length),
      innerSortXAllocation.Less xa p q = some (lessAllocation xa[p] xa[q]) := by
    intro p q hp hq
    simp [innerSortXAllocation.Less, List.getElem?_eq_getElem hp, List.getElem?_eq_getElem hq]
  obtain ⟨di, hdi⟩ : ∃ n : Nat, xa[i].DJTXAddr = n := ⟨_, rfl⟩
  obtain ⟨dj, hdj⟩ : ∃ n : Nat, xa[j].DJTXAddr = n := ⟨_, rfl⟩
  obtain ⟨dk, hdk⟩ : ∃ n : Nat, xa[k].DJTXAddr = n := ⟨_, rfl⟩
  have hwi : di < 2 ^ 160 := hdi ▸ hw xa[i] (List.getElem_mem hi)
  have hwj : dj < 2 ^ 160 := hdj ▸ hw xa[j] (List.getElem_mem hj)
  have hwk : dk < 2 ^ 160 := hdk ▸ hw xa[k] (List.getElem_mem hk)
  have eii := lessAllocation_iff xa[i] xa[i] di di hdi hdi hwi hwi
  have eij := lessAllocation_iff xa[i] xa[j] di dj hdi hdj hwi hwj
  have eji := lessAllocation_iff xa[j] xa[i] dj di hdj hdi hwj hwi
  have ejk := lessAllocation_iff xa[j] xa[k] dj dk hdj hdk hwj hwk
  have eik := lessAllocation_iff xa[i] xa[k] di dk hdi hdk hwi hwk
  rw [hless i i hi hi, hless i j hi hj, hless j k hj hk, hless i k hi hk, hless j i hj hi]
  simp only [Option.some.injEq]
  refine ⟨?_, ?_, ?_, ?_⟩
  · rw [Bool.eq_false_iff]
    intro h
    have := eii.1 h
    omega
  · intro h1 h2
    have f1 := eij.1 h1
    have f2 := ejk.1 h2
    exact eik.2 (by omega)
  · intro h
    have hne : xa[i].InitialAmount ≠ xa[j].InitialAmount ∨ di ≠ dj := by
      rcases h with h | h
      · exact Or.inl h
      · exact Or.inr (by rw [← hdi, ← hdj]; exact h)
    by_cases c : lessAllocation xa[i] xa[j] = true
    · refine Or.inl ⟨c, ?_⟩
      rw [Bool.eq_false_iff]
      intro h2
      have f1 := eij.1 c
      have f2 := eji.1 h2
      omega
    · refine Or.inr ⟨by simpa using c, eji.2 ?_⟩
      have f1 := mt eij.2 c
      omega
  · intro h1 h2
    have he : di = dj := by rw [← hdi, ← hdj]; exact h2
    refine ⟨?_, ?_⟩
    · rw [Bool.eq_false_iff]
      intro h
      have f1 := eij.1 h
      omega
    · rw [Bool.eq_false_iff]
      intro h
      have f1 := eji.1 h
      omega

/-- C23, on three allocations with amounts 5, 5 and 7 and addresses 9, 3 and 1: the second
is less than the first and the first less than the third. -/
theorem less_strict_order_witness :
    innerSortXAllocation.Less [⟨0, 9, 5, []⟩, ⟨0, 3, 5, []⟩, ⟨0, 1, 7, []⟩] 1 0 = some true
      ∧ innerSortXAllocation.Less [⟨0, 9, 5, []⟩, ⟨0, 3, 5, []⟩, ⟨0, 1, 7, []⟩] 0 2 = some true
      ∧ innerSortXAllocation.Less [⟨0, 9, 5, []⟩, ⟨0, 3, 5, []⟩, ⟨0, 1, 7, []⟩] 1 2 = some true
      ∧ innerSortXAllocation.Less [⟨0, 9, 5, []⟩, ⟨0, 3, 5, []⟩, ⟨0, 1, 7, []⟩] 1 1
        = some false := by
  have h := less_strict_order [⟨0, 9, 5, []⟩, ⟨0, 3, 5, []⟩, ⟨0, 1, 7, []⟩] (by decide)
    1 0 2 (by decide) (by decide) (by decide)
  have h10 : innerSortXAllocation.Less [⟨0, 9, 5, []⟩, ⟨0, 3, 5, []⟩, ⟨0, 1, 7, []⟩] 1 0
      = some true := by decide
  have h02 : innerSortXAllocation.Less [⟨0, 9, 5, []⟩, ⟨0, 3, 5, []⟩, ⟨0, 1, 7, []⟩] 0 2
      = some true := by decide
  exact ⟨h10, h02, h.2.1 h10 h02, h.1⟩

end genesis

/-! ## Theorems: vms/platformvm/blocks/executor -/

namespace executor

/-- C9: `GetState` of a block tracked with a non-nil `onAcceptState` is that state (with
true); of a block tracked with a nil `onAcceptState` it is false; of an untracked
block it is the base state (with true) exactly when the block is the base state's
last accepted block, and false otherwise. -/
theorem getState_cases (b : backend) (blkID : ID) :
    (∀ st d, b.blkIDToState.lookup blkID = some st → st.onAcceptState = some d →
        b.GetState blkID = some (.onAccept d))
      ∧ (∀ st, b.blkIDToState.lookup blkID = some st → st.onAcceptState = none →
        b.GetState blkID = none)
      ∧ (b.blkIDToState.lookup blkID = none →
        (b.GetState blkID = some .base ↔ blkID = b.state.GetLastAccepted)
          ∧ (blkID ≠ b.state.GetLastAccepted → b.GetState blkID = none)) := by
  refine ⟨?_, ?_, ?_⟩
  · intro st d h hd
    simp [backend.GetState, h, hd]
  · intro st h hd
    simp [backend.GetState, h, hd]
  · intro h
    have hg : b.GetState blkID
        = if blkID = b.state.GetLastAccepted then some .base else none := by
      simp only [backend.GetState, h]
    rw [hg]
    by_cases hl : blkID = b.state.GetLastAccepted
    · simp [if_pos hl, hl]
    · simp [if_neg hl, hl]

/-- C9, on the four cases of `TestGetState`. -/
theorem getState_cases_witness :
    testGetStateBackend.GetState 1 = some (.onAccept 50)
      ∧ testGetStateBackend.GetState 2 = none
      ∧ testGetStateBackend.GetState 3 = none
      ∧ testGetStateBackend.GetState 4 = some .base :=
  ⟨(getState_cases testGetStateBackend 1).1 ⟨none, some 50, 0⟩ 50 rfl rfl,
   (getState_cases testGetStateBackend 2).2.1 ⟨none, none, 0⟩ rfl rfl,
   ((getState_cases testGetStateBackend 3).2.2 rfl).2 (by decide),
   ((getState_cases testGetStateBackend 4).2.2 rfl).1.2 rfl⟩

/-- C10: `GetBlock` of a tracked block returns its in-memory stateless block and a nil
error; of an untracked block it returns the block and the error that the base
state's `GetStatelessBlock` returns, so `database.ErrNotFound` when that is what the
base state returns. -/
theorem getBlock_cases (b : backend) (blkID : ID) :
    (∀ st, b.blkIDToState.lookup blkID = some st →
        b.GetBlock blkID = (st.statelessBlock, none))
      ∧ (b.blkIDToState.lookup blkID = none →
        b.GetBlock blkID
            = ((b.state.GetStatelessBlock blkID).1, (b.state.GetStatelessBlock blkID).2.2)
          ∧ ((b.state.GetStatelessBlock blkID).2.2 = some ErrNotFound →
              (b.GetBlock blkID).2 = some ErrNotFound)) := by
  refine ⟨?_, ?_⟩
  · intro st h
    simp [backend.GetBlock, h]
  · intro h
    simp [backend.GetBlock, h]

/-- C10, on the three cases of `TestBackendGetBlock`. -/
theorem getBlock_cases_witness :
    testGetBlockBackend.GetBlock 1 = (some 60, none)
      ∧ (testGetBlockBackend.GetBlock 2).2 = some ErrNotFound
      ∧ testGetBlockBackend.GetBlock 3 = (some 60, none) :=
  ⟨(getBlock_cases testGetBlockBackend 1).1 ⟨some 60, none, 0⟩ rfl,
   ((getBlock_cases testGetBlockBackend 2).2 rfl).2 rfl,
   ((getBlock_cases testGetBlockBackend 3).2 rfl).1⟩

end executor

/-! ## Theorems: vms/platformvm/txs/executor -/

namespace txexecutor

/-- C12: when `RemoveSubnetValidatorTx` returns an error it has made no mutation of the
state (no `DeleteCurrentValidator`, `DeletePendingValidator`, `DeleteUTXO`, `AddUTXO`),
and each failing check gives its error: `errNotValidator` when the node is neither a
current nor a pending validator, `errRemovePermissionlessValidator` for a validator
that is not permissioned, `errWrongNumberOfCredentials` without credentials,
`errCantFindSubnet`, `errUnauthorizedSubnetModification` and `errFlowCheckFailed` when
the subnet lookup, the permission check and the spend check fail; when it returns nil
it has deleted the validator found, then every input UTXO, then added every output. -/
theorem removeSubnetValidatorTx_atomic (m : Mocks) (tx : Tx) :
    ((StandardTxExecutor.RemoveSubnetValidatorTx m tx).2 ≠ none →
        (StandardTxExecutor.RemoveSubnetValidatorTx m tx).1 = [])
      ∧ ((StandardTxExecutor.RemoveSubnetValidatorTx m tx).2 = none →
        ∃ staker isCurrent, findValidator m tx.Unsigned = .ok (staker, isCurrent)
          ∧ (StandardTxExecutor.RemoveSubnetValidatorTx m tx).1
            = [if isCurrent then Mutation.DeleteCurrentValidator staker
                else Mutation.DeletePendingValidator staker]
              ++ tx.Unsigned.Ins.map Mutation.DeleteUTXO
              ++ tx.Unsigned.Outs.enum.map
                  (fun entry => Mutation.AddUTXO tx.TxID entry.1 entry.2))
      ∧ (m.SyntacticVerify tx.Unsigned = none →
        ((∀ s, m.GetCurrentValidator tx.Unsigned.Subnet tx.Unsigned.NodeID ≠ .ok s) →
          (∀ s, m.GetPendingValidator tx.Unsigned.Subnet tx.Unsigned.NodeID ≠ .ok s) →
          StandardTxExecutor.RemoveSubnetValidatorTx m tx = ([], some errNotValidator))
        ∧ ∀ staker isCurrent, findValidator m tx.Unsigned = .ok (staker, isCurrent) →
          (m.IsPermissionedValidator staker.Priority = false →
            StandardTxExecutor.RemoveSubnetValidatorTx m tx
              = ([], some errRemovePermissionlessValidator))
          ∧ (m.IsPermissionedValidator staker.Priority = true →
            (tx.Creds = [] →
              StandardTxExecutor.RemoveSubnetValidatorTx m tx
                = ([], some errWrongNumberOfCredentials))
            ∧ ∀ cred, tx.Creds.getLast? = some cred →
              ((∀ owner, m.GetTx tx.Unsigned.Subnet ≠ .ok owner) →
                StandardTxExecutor.RemoveSubnetValidatorTx m tx
                  = ([], some errCantFindSubnet))
              ∧ ∀ owner, m.GetTx tx.Unsigned.Subnet = .ok owner →
                (m.VerifyPermission tx.Unsigned tx.Unsigned.SubnetAuth cred owner ≠ none →
                  StandardTxExecutor.RemoveSubnetValidatorTx m tx
                    = ([], some errUnauthorizedSubnetModification))
                ∧ (m.VerifyPermission tx.Unsigned tx.Unsigned.SubnetAuth cred owner = none →
                  m.VerifySpend tx.Unsigned tx.Unsigned.Ins tx.Unsigned.Outs tx.Creds.dropLast
                    ≠ none →
                  StandardTxExecutor.RemoveSubnetValidatorTx m tx
                    = ([], some errFlowCheckFailed)))) := by
  refine ⟨?_, ?_, ?_⟩
  · intro h
    unfold StandardTxExecutor.RemoveSubnetValidatorTx at h ⊢
    cases hv : verifyRemoval m tx with
    | error e => rfl
    | ok r => rw [hv] at h; exact absurd rfl h
  · intro h
    unfold StandardTxExecutor.RemoveSubnetValidatorTx at h ⊢
    cases hv : verifyRemoval m tx with
    | error e => rw [hv] at h; exact absurd h (by simp)
    | ok r =>
      obtain ⟨staker, isCurrent⟩ := r
      refine ⟨staker, isCurrent, ?_, rfl⟩
      unfold verifyRemoval at hv
      cases h1 : m.SyntacticVerify tx.Unsigned with
      | some e => rw [h1] at hv; exact absurd hv (by simp)
      | none =>
        rw [h1] at hv
        cases h2 : findValidator m tx.Unsigned with
        | error e => rw [h2] at hv; exact absurd hv (by simp)
        | ok r2 =>
          obtain ⟨s2, c2⟩ := r2
          rw [h2] at hv
          dsimp only at hv
          by_cases h3 : (!m.IsPermissionedValidator s2.Priority) = true
          · rw [if_pos h3] at hv; exact absurd hv (by simp)
          rw [if_neg h3] at hv
          cases h4 : tx.Creds.getLast? with
          | none => rw [h4] at hv; exact absurd hv (by simp)
          | some cred =>
            rw [h4] at hv
            dsimp only at hv
            cases h5 : m.GetTx tx.Unsigned.Subnet with
            | error e => rw [h5] at hv; exact absurd hv (by simp)
            | ok owner =>
              rw [h5] at hv
              dsimp only at hv
              cases h6 : m.VerifyPermission tx.Unsigned tx.Unsigned.SubnetAuth cred owner with
              | some e => rw [h6] at hv; exact absurd hv (by simp)
              | none =>
                rw [h6] at hv
                dsimp only at hv
                cases h7 : m.VerifySpend tx.Unsigned tx.Unsigned.Ins tx.Unsigned.Outs
                    tx.Creds.dropLast with
                | some e => rw [h7] at hv; exact absurd hv (by simp)
                | none =>
                  rw [h7] at hv
                  simp only [Except.ok.injEq, Prod.mk.injEq] at hv
                  rw [hv.1, hv.2]
  · intro h1
    refine ⟨?_, ?_⟩
    · intro hc hp
      have hf : findValidator m tx.Unsigned = .error errNotValidator := by
        unfold findValidator
        cases h2 : m.GetCurrentValidator tx.Unsigned.Subnet tx.Unsigned.NodeID with
        | ok s => exact absurd h2 (hc s)
        | error e =>
          cases h3 : m.GetPendingValidator tx.Unsigned.Subnet tx.Unsigned.NodeID with
          | ok s => exact absurd h3 (hp s)
          | error e2 => rfl
      simp [StandardTxExecutor.RemoveSubnetValidatorTx, verifyRemoval, h1, hf]
    · intro staker isCurrent hf
      refine ⟨?_, ?_⟩
      · intro hperm
        simp [StandardTxExecutor.RemoveSubnetValidatorTx, verifyRemoval, h1, hf, hperm]
      · intro hperm
        refine ⟨?_, ?_⟩
        · intro hcreds
          simp [StandardTxExecutor.RemoveSubnetValidatorTx, verifyRemoval, h1, hf, hperm, hcreds]
        · intro cred hcred
          refine ⟨?_, ?_⟩
          · intro hno
            cases h5 : m.GetTx tx.Unsigned.Subnet with
            | ok owner => exact absurd h5 (hno owner)
            | error e =>
              simp [StandardTxExecutor.RemoveSubnetValidatorTx, verifyRemoval, h1, hf, hperm,
                hcred, h5]
          · intro owner h5
            refine ⟨?_, ?_⟩
            · intro h6
              cases h6v : m.VerifyPermission tx.Unsigned tx.Unsigned.SubnetAuth cred owner with
              | none => exact absurd h6v h6
              | some e =>
                simp [StandardTxExecutor.RemoveSubnetValidatorTx, verifyRemoval, h1, hf, hperm,
                  hcred, h5, h6v]
            · intro h6 h7
              cases h7v : m.VerifySpend tx.Unsigned tx.Unsigned.Ins tx.Unsigned.Outs
                  tx.Creds.dropLast with
              | none => exact absurd h7v h7
              | some e =>
                simp [StandardTxExecutor.RemoveSubnetValidatorTx, verifyRemoval, h1, hf, hperm,
                  hcred, h5, h6, h7v]

/-- C12, on the cases "valid tx", "tx has no credentials" and "flow checker failed" of the
test. -/
theorem removeSubnetValidatorTx_atomic_witness :
    StandardTxExecutor.RemoveSubnetValidatorTx validMocks testTx
        = ([.DeleteCurrentValidator ⟨3, 6, 0⟩, .DeleteUTXO 100, .AddUTXO 9 0 200], none)
      ∧ StandardTxExecutor.RemoveSubnetValidatorTx validMocks { testTx with Creds := [] }
        = ([], some errWrongNumberOfCredentials)
      ∧ (StandardTxExecutor.RemoveSubnetValidatorTx
          { validMocks with VerifySpend := fun _ _ _ _ => some (.new "") } testTx).1 = [] :=
  ⟨by decide, by decide,
   (removeSubnetValidatorTx_atomic
      { validMocks with VerifySpend := fun _ _ _ _ => some (.new "") } testTx).1 (by decide)⟩

end txexecutor

/-! ## Theorems: snow/consensus confidence counter -/

namespace snowball

/-- C14: for every poll result, a quorum winner equal to the current preference adds one
to `successes` and keeps the preference (outcome `QuorumSameChoice`); a quorum winner
different from the current preference sets `successes` to 1, whatever it was, and
makes the winner the preference (outcome `QuorumNewChoice`); a result without quorum
winner sets `successes` to 0 and keeps the preference (outcome `NoQuorum`). -/
theorem recordVote_rule (alpha beta : Nat) (c : Counter) (tally : List (ID × Nat)) :
    (quorumWinner alpha tally = some c.preference →
        (RecordVote alpha beta c tally).1
            = { successes := c.successes + 1, preference := c.preference }
          ∧ (RecordVote alpha beta c tally).2.1 = .QuorumSameChoice)
      ∧ (∀ winner, quorumWinner alpha tally = some winner → winner ≠ c.preference →
        (RecordVote alpha beta c tally).1 = { successes := 1, preference := winner }
          ∧ (RecordVote alpha beta c tally).2.1 = .QuorumNewChoice)
      ∧ (quorumWinner alpha tally = none →
        (RecordVote alpha beta c tally).1 = { successes := 0, preference := c.preference }
          ∧ (RecordVote alpha beta c tally).2.1 = .NoQuorum) := by
  refine ⟨?_, ?_, ?_⟩
  · intro h
    simp [RecordVote, h]
  · intro winner h hne
    simp [RecordVote, h, hne]
  · intro h
    simp [RecordVote, h]

/-- C14, with quorum 15 on a counter that prefers candidate 1 with 7 successes: 16 of 20
for candidate 1 gives 8 successes, 16 of 20 for candidate 2 gives 1 success and
preference 2, and a 10 to 10 split gives 0 successes and preference 1. -/
theorem recordVote_rule_witness :
    (RecordVote 15 20 ⟨7, 1⟩ [(1, 16), (2, 4)]).1 = ⟨8, 1⟩
      ∧ (RecordVote 15 20 ⟨7, 1⟩ [(1, 4), (2, 16)]).1 = ⟨1, 2⟩
      ∧ (RecordVote 15 20 ⟨7, 1⟩ [(1, 10), (2, 10)]).1 = ⟨0, 1⟩ :=
  ⟨((recordVote_rule 15 20 ⟨7, 1⟩ [(1, 16), (2, 4)]).1 (by decide)).1,
   ((recordVote_rule 15 20 ⟨7, 1⟩ [(1, 4), (2, 16)]).2.1 2 (by decide) (by decide)).1,
   ((recordVote_rule 15 20 ⟨7, 1⟩ [(1, 10), (2, 10)]).2.2 (by decide)).1⟩

end snowball

/-! ## Theorems: snow/consensus/avalanche/poll -/

namespace poll

/-- C15: a `Vote` from a validator that is not in the sample of the poll, or from a
validator that has already voted, leaves the poll as it was, and so `Finished()` and
`Result()` as they were. -/
theorem vote_ignored (p : Poll) (vdr : NodeID) (votes : List ID)
    (h : p.sampled vdr = false ∨ p.voted vdr = true) :
    p.Vote vdr votes = p
      ∧ (p.Vote vdr votes).Finished = p.Finished
      ∧ (p.Vote vdr votes).Result = p.Result := by
  have hp : p.Vote vdr votes = p := by
    unfold Poll.Vote
    rcases h with h | h <;> simp [h]
  rw [hp]
  exact ⟨rfl, rfl, rfl⟩

/-- C15, on a poll of the validators 1, 2 and 3 in which 1 has voted: a second vote of 1
and a vote of the unsampled validator 4 change nothing, where a vote of 2 is
recorded. -/
theorem vote_ignored_witness :
    testPoll.Vote 1 [11] = testPoll
      ∧ testPoll.Vote 4 [11] = testPoll
      ∧ testPoll.Vote 2 [11] ≠ testPoll :=
  ⟨(vote_ignored testPoll 1 [11] (Or.inr (by decide))).1,
   (vote_ignored testPoll 4 [11] (Or.inl (by decide))).1,
   by decide⟩

/-- C16: `Set.Add` with a request ID that is not registered returns true, registers it
and increases `Len()` by one; with a request ID that is already registered it returns
false and leaves the set, and so its polls and `Len()`, as it was. -/
theorem add_duplicate_rejected (s : Set) (requestID : Nat) (vdrs : List (NodeID × Nat)) :
    (s.registered requestID = false →
        (s.Add requestID vdrs).2 = true
          ∧ (s.Add requestID vdrs).1.Len = s.Len + 1
          ∧ (s.Add requestID vdrs).1.registered requestID = true)
      ∧ (s.registered requestID = true →
        (s.Add requestID vdrs).2 = false
          ∧ (s.Add requestID vdrs).1 = s
          ∧ (s.Add requestID vdrs).1.Len = s.Len) := by
  refine ⟨?_, ?_⟩
  · intro h
    have ha : s.Add requestID vdrs = ({ polls := s.polls ++ [(requestID, New vdrs)] }, true) := by
      simp [Set.Add, h]
    rw [ha]
    simp [Set.Len, Set.registered]
  · intro h
    simp [Set.Add, h]

/-- C16, on a set with request 7 registered: adding 7 again is refused, adding 8 is
accepted. -/
theorem add_duplicate_rejected_witness :
    (Set.Add ⟨[(7, New [(1, 1)])]⟩ 7 [(2, 1)]) = (⟨[(7, New [(1, 1)])]⟩, false)
      ∧ (Set.Add ⟨[(7, New [(1, 1)])]⟩ 8 [(2, 1)]).2 = true
      ∧ (Set.Add ⟨[(7, New [(1, 1)])]⟩ 8 [(2, 1)]).1.Len = 2 :=
  ⟨Prod.ext ((add_duplicate_rejected ⟨[(7, New [(1, 1)])]⟩ 7 [(2, 1)]).2 (by decide)).2.1
      ((add_duplicate_rejected ⟨[(7, New [(1, 1)])]⟩ 7 [(2, 1)]).2 (by decide)).1,
   ((add_duplicate_rejected ⟨[(7, New [(1, 1)])]⟩ 8 [(2, 1)]).1 (by decide)).1,
   ((add_duplicate_rejected ⟨[(7, New [(1, 1)])]⟩ 8 [(2, 1)]).1 (by decide)).2.1⟩

end poll

/-! ## Theorems: error codes of rpcdb and rpcchainvm -/

namespace rpcchainvm

end rpcchainvm

/-! ## Theorems: duration of a number of seconds -/

namespace txexecutor

/-- C26: for every `uint32` number of seconds `n`, `time.Duration(n) * time.Second` does
not wrap around: it is `n * 1,000,000,000` nanoseconds, between 0 and `math.MaxInt64`;
and the constant `math.MaxUint32 * time.Second` that the test file declares is at most
`math.MaxInt64`. -/
theorem seconds_fit_duration (n : Nat) (h : n ≤ MaxUint32) :
    secondsDuration n = (n : Int) * 1000000000
      ∧ 0 ≤ secondsDuration n ∧ secondsDuration n ≤ MaxInt64
      ∧ maxUint32Seconds ≤ MaxInt64 := by
  have hn : (n : Int) ≤ 4294967295 := by
    have : n ≤ 4294967295 := h
    exact_mod_cast this
  have h0 : (0 : Int) ≤ n := Int.natCast_nonneg n
  have hs : secondsDuration n = (n : Int) * 1000000000 := by
    unfold secondsDuration wrapInt64 Second
    have hlt : ((n : Int) * 1000000000 + 2 ^ 63) < 2 ^ 64 := by
      norm_num
      omega
    have hge : (0 : Int) ≤ (n : Int) * 1000000000 + 2 ^ 63 := by
      norm_num
      omega
    rw [Int.emod_eq_of_lt hge hlt]
    ring
  refine ⟨hs, ?_, ?_, by decide⟩
  · rw [hs]
    omega
  · rw [hs]
    unfold MaxInt64
    omega

/-- C26, at `math.MaxUint32` seconds: 4,294,967,295,000,000,000 nanoseconds. -/
theorem seconds_fit_duration_witness :
    secondsDuration 4294967295 = 4294967295000000000
      ∧ secondsDuration 4294967295 ≤ MaxInt64 :=
  ⟨(seconds_fit_duration 4294967295 (by decide)).1,
   (seconds_fit_duration 4294967295 (by decide)).2.2.1⟩

end txexecutor

/-! ## Theorems: utils/sampler -/

namespace sampler

/-- C27: `a.Less(b)` holds exactly when the cumulative weight of `a` is greater than that
of `b`; for equal cumulative weights it is false in both directions. -/
theorem less_iff_greater_weight (a b : weightedArrayElement) :
    (a.Less b = true ↔ a.cumulativeWeight > b.cumulativeWeight)
      ∧ (a.cumulativeWeight = b.cumulativeWeight → a.Less b = false ∧ b.Less a = false) := by
  refine ⟨by simp [weightedArrayElement.Less], ?_⟩
  intro h
  simp [weightedArrayElement.Less, h]

/-- C27, on the elements of `TestWeightedArrayElementLess`: two zero elements, then
weights 1 and 2. -/
theorem less_iff_greater_weight_witness :
    weightedArrayElement.Less ⟨0⟩ ⟨0⟩ = false
      ∧ weightedArrayElement.Less ⟨1⟩ ⟨2⟩ = false
      ∧ weightedArrayElement.Less ⟨2⟩ ⟨1⟩ = true :=
  ⟨((less_iff_greater_weight ⟨0⟩ ⟨0⟩).2 rfl).1, by decide,
   (less_iff_greater_weight ⟨2⟩ ⟨1⟩).1.2 (by decide)⟩

end sampler

end Dijets
